import Mathlib

/-!
Verification of the Entity-Component Manager (`src/EntityComponentManager.cc`)
of `ign-gazebo` against its natural-language specification.

The C++ code is shallowly embedded: each member function of
`EntityComponentManager` / `EntityComponentManagerPrivate` becomes a Lean
function over an explicit `ECM` state record.  Entities and component type
ids are `Nat` (64-bit unsigned integers in the source; the entity counter is
kept modulo `2 ^ 64` where overflow matters).  Component payloads are
represented by their serialized byte strings (`String`), which makes the
external `Serialize`/`Deserialize` pair of the Serializable Component
contract the identity; this is the standard abstraction for a factory whose
codecs are faithful.

Two collaborators of the manager are not part of the sources provided under
`src/` and are modelled from the specification:
  * `EntityComponentStorage` (spec section 4.1), and
  * the `ignition::math` graph library (spec section 4.2).
Their models carry a `Modelled from the spec:` note in their doc comments.

Hash containers (`std::unordered_map` / `std::unordered_set`) are modelled
as `Finset`-valued total functions plus an explicit domain `Finset` where
entry presence is observable.  Where the C++ iterates a hash container in
unspecified order, the model iterates the ascending order of the keys; all
properties proved here are insensitive to that choice and the spot is noted.
-/

/-! ## Entity graph (modelled from the spec)

Modelled from the spec: the `ignition::math::graph` library used for the
member `entities` is an external collaborator (spec sections 4.2 and 6) whose
sources are not in `src/`.  Vertices are entity ids; edges are directed
parent→child pairs.  `AddEdge` fails (returns the null id) when either
vertex is missing.  `AdjacentsTo`/`AdjacentsFrom` list parents/children.
-/
structure EntityGraph where
  verts : Finset Nat
  edges : List (Nat × Nat)
deriving DecidableEq

/-- The empty entity graph (a freshly constructed `EntityGraph()`). -/
def EntityGraph.empty : EntityGraph := ⟨∅, []⟩

/-- Modelled from the spec: `AddVertex` registers a vertex id. -/
def EntityGraph.addVertex (g : EntityGraph) (v : Nat) : EntityGraph :=
  { g with verts := insert v g.verts }

/-- Modelled from the spec: `RemoveVertex` also removes incident edges. -/
def EntityGraph.removeVertex (g : EntityGraph) (v : Nat) : EntityGraph :=
  { verts := g.verts.erase v
    edges := g.edges.filter (fun ed => ed.1 ≠ v ∧ ed.2 ≠ v) }

/-- Modelled from the spec: `AddEdge(parent→child)` succeeds (second
component `true`) exactly when both endpoints are vertices of the graph. -/
def EntityGraph.addEdge (g : EntityGraph) (p c : Nat) : EntityGraph × Bool :=
  if p ∈ g.verts ∧ c ∈ g.verts then
    ({ g with edges := g.edges ++ [(p, c)] }, true)
  else (g, false)

/-- Modelled from the spec: `AdjacentsTo(v)` lists the parents of `v`. -/
def EntityGraph.adjacentsTo (g : EntityGraph) (v : Nat) : List Nat :=
  (g.edges.filter (fun ed => decide (ed.2 = v))).map (fun ed => ed.1)

/-- Modelled from the spec: `AdjacentsFrom(v)` lists the children of `v`. -/
def EntityGraph.adjacentsFrom (g : EntityGraph) (v : Nat) : List Nat :=
  (g.edges.filter (fun ed => decide (ed.1 = v))).map (fun ed => ed.2)

/-- One parent→child edge step of the graph, as a relation. -/
def EntityGraph.childRel (g : EntityGraph) (a b : Nat) : Prop :=
  (a, b) ∈ g.edges

/-- One saturation step of breadth-first traversal: a set of vertices plus
every direct child of a member of the set. -/
def EntityGraph.childStep (g : EntityGraph) (x : Finset Nat) : Finset Nat :=
  x ∪ ((g.edges.filter (fun ed => decide (ed.1 ∈ x))).map (fun ed => ed.2)).toFinset

/-- Iterated saturation steps. -/
def EntityGraph.reachIter (g : EntityGraph) (x : Finset Nat) : Nat → Finset Nat
  | 0 => x
  | n + 1 => g.childStep (g.reachIter x n)

/-- Modelled from the spec: the set of vertices delivered by the library's
breadth-first sort from root `e` — the root together with every vertex
reachable from it along parent→child edges.  Saturation for one step more
than the number of edges reaches the fixed point (proved below). -/
def EntityGraph.reach (g : EntityGraph) (e : Nat) : Finset Nat :=
  g.reachIter {e} (g.edges.length + 1)

theorem EntityGraph.subset_childStep (g : EntityGraph) (x : Finset Nat) :
    x ⊆ g.childStep x :=
  Finset.subset_union_left

theorem EntityGraph.childStep_mono (g : EntityGraph) {x y : Finset Nat}
    (h : x ⊆ y) : g.childStep x ⊆ g.childStep y := by
  intro v hv
  rcases Finset.mem_union.mp hv with hx | hm
  · exact Finset.mem_union_left _ (h hx)
  · refine Finset.mem_union_right _ ?_
    rcases List.mem_toFinset.mp hm with hm'
    rcases List.mem_map.mp hm' with ⟨ed, hed, rfl⟩
    rcases List.mem_filter.mp hed with ⟨hedm, hdec⟩
    refine List.mem_toFinset.mpr (List.mem_map.mpr ⟨ed, ?_, rfl⟩)
    exact List.mem_filter.mpr ⟨hedm, decide_eq_true (h (of_decide_eq_true hdec))⟩

theorem EntityGraph.reachIter_subset_succ (g : EntityGraph) (x : Finset Nat)
    (n : Nat) : g.reachIter x n ⊆ g.reachIter x (n + 1) :=
  g.subset_childStep _

theorem EntityGraph.reachIter_subset (g : EntityGraph) (x : Finset Nat)
    {m n : Nat} (h : m ≤ n) : g.reachIter x m ⊆ g.reachIter x n := by
  induction n with
  | zero => cases Nat.le_zero.mp h; exact Finset.Subset.refl _
  | succ n ih =>
    rcases Nat.lt_or_ge m (n + 1) with hlt | hge
    · exact (ih (Nat.lt_succ_iff.mp hlt)).trans (g.reachIter_subset_succ x n)
    · cases Nat.le_antisymm h hge; exact Finset.Subset.refl _

theorem EntityGraph.reachIter_fix (g : EntityGraph) (x : Finset Nat) {n : Nat}
    (h : g.reachIter x (n + 1) = g.reachIter x n) (k : Nat) :
    g.reachIter x (n + k) = g.reachIter x n := by
  induction k with
  | zero => rfl
  | succ k ih =>
    have : g.reachIter x (n + k + 1) = g.childStep (g.reachIter x (n + k)) := rfl
    rw [show n + (k + 1) = n + k + 1 from rfl, this, ih]
    exact h

theorem EntityGraph.reachIter_bounded (g : EntityGraph) (e : Nat) (n : Nat) :
    g.reachIter {e} n ⊆ insert e (g.edges.map (fun ed => ed.2)).toFinset := by
  induction n with
  | zero =>
    intro v hv
    simp only [EntityGraph.reachIter] at hv
    exact Finset.mem_insert.mpr (Or.inl (Finset.mem_singleton.mp hv))
  | succ n ih =>
    intro v hv
    rcases Finset.mem_union.mp hv with hx | hm
    · exact ih hx
    · rcases List.mem_map.mp (List.mem_toFinset.mp hm) with ⟨ed, hed, rfl⟩
      refine Finset.mem_insert.mpr (Or.inr ?_)
      exact List.mem_toFinset.mpr
        (List.mem_map.mpr ⟨ed, (List.mem_filter.mp hed).1, rfl⟩)

theorem EntityGraph.reachIter_card_of_strict (g : EntityGraph) (e : Nat) :
    ∀ n, (∀ k < n, g.reachIter {e} (k + 1) ≠ g.reachIter {e} k) →
      n + 1 ≤ (g.reachIter {e} n).card := by
  intro n
  induction n with
  | zero =>
    intro _
    have : e ∈ g.reachIter {e} 0 := Finset.mem_singleton_self e
    exact Finset.card_pos.mpr ⟨e, this⟩
  | succ n ih =>
    intro h
    have hne : g.reachIter {e} (n + 1) ≠ g.reachIter {e} n :=
      h n (Nat.lt_succ_self n)
    have hss : g.reachIter {e} n ⊂ g.reachIter {e} (n + 1) :=
      Finset.ssubset_iff_of_subset (g.reachIter_subset_succ {e} n) |>.mpr
        (by
          rcases Finset.exists_of_ssubset
            (lt_of_le_of_ne (g.reachIter_subset_succ {e} n)
              (fun hh => hne hh.symm)) with ⟨a, ha, hna⟩
          exact ⟨a, ha, hna⟩)
    have := Finset.card_lt_card hss
    have hprev := ih (fun k hk => h k (Nat.lt_succ_of_lt hk))
    omega

theorem EntityGraph.reach_isFix (g : EntityGraph) (e : Nat) :
    g.childStep (g.reach e) = g.reach e := by
  set L := g.edges.length with hL
  by_cases hstab : ∃ k, k ≤ L ∧ g.reachIter {e} (k + 1) = g.reachIter {e} k
  · rcases hstab with ⟨k, hkL, hfix⟩
    have h1 : g.reachIter {e} (L + 1) = g.reachIter {e} k := by
      have := g.reachIter_fix {e} hfix (L + 1 - k)
      rwa [Nat.add_sub_cancel' (Nat.le_succ_of_le hkL)] at this
    have h2 : g.reachIter {e} (L + 2) = g.reachIter {e} k := by
      have := g.reachIter_fix {e} hfix (L + 2 - k)
      rwa [Nat.add_sub_cancel' (by omega)] at this
    show g.reachIter {e} (L + 2) = g.reachIter {e} (L + 1)
    rw [h1, h2]
  · exfalso
    push_neg at hstab
    have hstrict : ∀ k < L + 1, g.reachIter {e} (k + 1) ≠ g.reachIter {e} k :=
      fun k hk => hstab k (Nat.lt_succ_iff.mp hk)
    have hcard := g.reachIter_card_of_strict e (L + 1) hstrict
    have hbound := g.reachIter_bounded e (L + 1)
    have hle : (g.reachIter {e} (L + 1)).card ≤
        (insert e (g.edges.map (fun ed => ed.2)).toFinset).card :=
      Finset.card_le_card hbound
    have : (insert e (g.edges.map (fun ed => ed.2)).toFinset).card ≤
        (g.edges.map (fun ed => ed.2)).toFinset.card + 1 :=
      Finset.card_insert_le _ _
    have hlen : (g.edges.map (fun ed => ed.2)).toFinset.card ≤ L := by
      calc (g.edges.map (fun ed => ed.2)).toFinset.card
          ≤ (g.edges.map (fun ed => ed.2)).length := (g.edges.map _).toFinset_card_le
        _ = L := by rw [List.length_map]
    omega

theorem EntityGraph.reach_sound (g : EntityGraph) (e v : Nat)
    (h : v ∈ g.reach e) : Relation.ReflTransGen g.childRel e v := by
  suffices hgen : ∀ n v, v ∈ g.reachIter {e} n → Relation.ReflTransGen g.childRel e v by
    exact hgen _ v h
  intro n
  induction n with
  | zero =>
    intro v hv
    simp only [EntityGraph.reachIter] at hv
    rw [Finset.mem_singleton.mp hv]
  | succ n ih =>
    intro v hv
    rcases Finset.mem_union.mp hv with hx | hm
    · exact ih v hx
    · rcases List.mem_map.mp (List.mem_toFinset.mp hm) with ⟨ed, hed, rfl⟩
      rcases List.mem_filter.mp hed with ⟨hedm, hdec⟩
      have htail : Relation.ReflTransGen g.childRel e ed.1 :=
        ih ed.1 (of_decide_eq_true hdec)
      exact htail.tail (show g.childRel ed.1 ed.2 from hedm)

theorem EntityGraph.reach_complete (g : EntityGraph) (e v : Nat)
    (h : Relation.ReflTransGen g.childRel e v) : v ∈ g.reach e := by
  induction h with
  | refl =>
    exact g.reachIter_subset {e} (Nat.zero_le _) (Finset.mem_singleton_self e)
  | tail _ hbc ih =>
    rw [← g.reach_isFix e]
    refine Finset.mem_union_right _ ?_
    exact List.mem_toFinset.mpr (List.mem_map.mpr
      ⟨_, List.mem_filter.mpr ⟨hbc, decide_eq_true ih⟩, rfl⟩)

/-- The saturation set computed by the breadth-first model is exactly the
set of vertices reachable from `e` along parent→child edges, `e` included. -/
theorem EntityGraph.mem_reach_iff (g : EntityGraph) (e v : Nat) :
    v ∈ g.reach e ↔ Relation.ReflTransGen g.childRel e v :=
  ⟨g.reach_sound e v, g.reach_complete e v⟩


/-! ## Ascending enumeration of a finite set

The C++ iterates hash containers in unspecified order; the model fixes the
ascending order of the keys.  Insertion sort is used because it is
structurally recursive, so concrete states evaluate inside the kernel. -/

/-- The elements of a multiset in ascending order. -/
def mAsc (m : Multiset Nat) : List Nat :=
  Quot.liftOn m (fun l => l.insertionSort (· ≤ ·))
    (fun a b hab => List.eq_of_perm_of_sorted
      ((List.perm_insertionSort _ a).trans
        (hab.trans (List.perm_insertionSort _ b).symm))
      (List.sorted_insertionSort _ a) (List.sorted_insertionSort _ b))

/-- The elements of a finite set in ascending order. -/
def ascList (x : Finset Nat) : List Nat := mAsc x.val

theorem mAsc_coe (m : Multiset Nat) : (↑(mAsc m) : Multiset Nat) = m :=
  Quotient.inductionOn m (fun l => Quot.sound (List.perm_insertionSort _ l))

theorem mem_ascList (x : Finset Nat) (a : Nat) : a ∈ ascList x ↔ a ∈ x := by
  rw [← Multiset.mem_coe, ascList, mAsc_coe]
  exact Iff.rfl

theorem ascList_nodup (x : Finset Nat) : (ascList x).Nodup := by
  have hx := x.nodup
  rw [← Multiset.coe_nodup (l := ascList x), ascList, mAsc_coe]
  exact hx

/-! ## Component storage (modelled from the spec)

Modelled from the spec: `EntityComponentStorage` (member `entityCompStorage`)
is declared in headers that are not under `src/`; its contract is spec
section 4.1.  A payload is its serialized byte string.  A slot remembers
whether a component of a type was never added, is present, or was removed
(the latter so that a renewed addition reports `RE_ADDITION`).
-/
inductive Slot where
  | absent : Slot
  | present : String → Slot
  | removedSlot : Slot
deriving DecidableEq

/-- Modelled from the spec: the four-valued outcome of `AddComponent`. -/
inductive ComponentAdditionResult where
  | FAILED_ADDITION | NEW_ADDITION | RE_ADDITION | MODIFICATION
deriving DecidableEq

/-- Modelled from the spec: per-entity, per-type-id owned payloads. -/
structure Storage where
  ents : Finset Nat
  slots : Nat → Nat → Slot

/-- A freshly constructed `EntityComponentStorage()`. -/
def Storage.empty : Storage := ⟨∅, fun _ _ => Slot.absent⟩

/-- Modelled from the spec: `AddEntity` is true on first registration. -/
def Storage.addEntity (st : Storage) (e : Nat) : Bool × Storage :=
  if e ∈ st.ents then (false, st) else (true, { st with ents := insert e st.ents })

/-- Replace the slot of the pair `(e, t)`. -/
def Storage.setSlot (st : Storage) (e t : Nat) (sl : Slot) : Storage :=
  { st with slots :=
      Function.update st.slots e (Function.update (st.slots e) t sl) }

/-- Modelled from the spec: `AddComponent` refuses unknown entities, reports
a new addition for a never-seen slot, a re-addition for a removed slot, and
a modification when the payload replaces a present one. -/
def Storage.addComponent (st : Storage) (e t : Nat) (bytes : String) :
    ComponentAdditionResult × Storage :=
  if e ∉ st.ents then (ComponentAdditionResult.FAILED_ADDITION, st)
  else
    match st.slots e t with
    | Slot.absent => (ComponentAdditionResult.NEW_ADDITION, st.setSlot e t (Slot.present bytes))
    | Slot.removedSlot => (ComponentAdditionResult.RE_ADDITION, st.setSlot e t (Slot.present bytes))
    | Slot.present _ => (ComponentAdditionResult.MODIFICATION, st.setSlot e t (Slot.present bytes))

/-- Modelled from the spec: `RemoveComponent` returns the ex-payload when
one was present. -/
def Storage.removeComponent (st : Storage) (e t : Nat) : Option String × Storage :=
  match st.slots e t with
  | Slot.present b => (some b, st.setSlot e t Slot.removedSlot)
  | _ => (none, st)

/-- Modelled from the spec: `ValidComponent` borrows a present payload. -/
def Storage.validComponent (st : Storage) (e t : Nat) : Option String :=
  match st.slots e t with
  | Slot.present b => some b
  | _ => none

/-- Modelled from the spec: `RemoveEntity` drops all components of `e`. -/
def Storage.removeEntity (st : Storage) (e : Nat) : Storage :=
  { st with slots := Function.update st.slots e (fun _ => Slot.absent) }

/-! ## Wire messages

The semantic schema of spec section 6; the message library itself is
external.  The two map-shaped messages are association lists with unique
keys (insertion order models the container's iteration order; no property
proved here depends on it).  The `has_one_time_component_changes` flag of
`SerializedStateMap` is omitted: it is read only by the map-form `SetState`,
which no claim exercises.
-/
structure SerializedComponent where
  type : Nat
  component : String
  remove : Bool
deriving DecidableEq

structure SerializedEntity where
  id : Nat
  remove : Bool
  components : List SerializedComponent
deriving DecidableEq

structure SerializedState where
  entities : List SerializedEntity
deriving DecidableEq

structure SerializedEntityMap where
  id : Nat
  remove : Bool
  components : List (Nat × SerializedComponent)
deriving DecidableEq

structure SerializedStateMap where
  entities : List (Nat × SerializedEntityMap)
deriving DecidableEq

/-- Insert an entry `{ id = e }` for `e` unless the map already has key `e`
(the recurring `find`-then-`insert` pattern of the C++). -/
def SerializedStateMap.getOrInsert (msg : SerializedStateMap) (e : Nat) :
    SerializedStateMap :=
  if (msg.entities.lookup e).isSome then msg
  else { entities := msg.entities ++ [(e, ⟨e, false, []⟩)] }

/-- Apply `f` to the entry at key `e`, leaving other entries alone. -/
def SerializedStateMap.modifyEnt (msg : SerializedStateMap) (e : Nat)
    (f : SerializedEntityMap → SerializedEntityMap) : SerializedStateMap :=
  { entities := msg.entities.map (fun p => if p.1 = e then (p.1, f p.2) else p) }

/-! ## The manager state

One record per data member of `EntityComponentManagerPrivate`.  The hash
maps `entityComponents`, `oneTimeChangedComponents`,
`periodicChangedComponents`, `removedComponents` and `descendantCache`
become total functions; for `entityComponents` and `descendantCache` the
presence of an entry is observable in the code (`find` against `end`), so
an explicit domain finset accompanies the function (the function is `∅`
outside the domain, kept so by every operation).  For the two change maps
only membership of an entity in the inner set is ever observed by the code
modelled here, so no domain finset is needed.  A view is keyed by its
component-type set; the inner bookkeeping of a view is observed by no claim
and is not modelled, so the registry is the list of keys. -/
structure ECM where
  entities : EntityGraph
  entityCompStorage : Storage
  createdCompTypes : Finset Nat
  periodicChangedComponents : Nat → Finset Nat
  oneTimeChangedComponents : Nat → Finset Nat
  newlyCreatedEntities : Finset Nat
  toRemoveEntities : Finset Nat
  modifiedComponents : Finset Nat
  removeAllEntities : Bool
  entityComponentsDirty : Bool
  entityComponentsDom : Finset Nat
  entityComponentsVal : Nat → Finset Nat
  views : List (Finset Nat)
  descendantCacheDom : Finset Nat
  descendantCacheVal : Nat → Finset Nat
  entityCount : Nat
  removedComponents : Nat → Finset Nat

/-- A default-constructed `EntityComponentManager`. -/
def ECM.fresh : ECM where
  entities := EntityGraph.empty
  entityCompStorage := Storage.empty
  createdCompTypes := ∅
  periodicChangedComponents := fun _ => ∅
  oneTimeChangedComponents := fun _ => ∅
  newlyCreatedEntities := ∅
  toRemoveEntities := ∅
  modifiedComponents := ∅
  removeAllEntities := false
  entityComponentsDirty := true
  entityComponentsDom := ∅
  entityComponentsVal := fun _ => ∅
  views := []
  descendantCacheDom := ∅
  descendantCacheVal := fun _ => ∅
  entityCount := 0
  removedComponents := fun _ => ∅

/-- The `ComponentState` enumeration of change states. -/
inductive ComponentState where
  | NoChange | PeriodicChange | OneTimeChange
deriving DecidableEq

/-- The largest 64-bit value, `kNullEntity`'s counterpart at the top end. -/
def maxEntity : Nat := 2 ^ 64 - 1

/-- `EntityComponentManager::HasEntity`: the id resolves to a graph vertex. -/
def ECM.HasEntity (s : ECM) (e : Nat) : Bool :=
  decide (e ∈ s.entities.verts)

/-- `EntityComponentManager::EntityCount`: number of graph vertices. -/
def ECM.EntityCount (s : ECM) : Nat :=
  s.entities.verts.card

/-- `EntityComponentManagerPrivate::AddModifiedComponent` (lines 1439-1452):
skip entities that are newly created, pending removal, or already listed. -/
def ECM.AddModifiedComponent (s : ECM) (e : Nat) : ECM :=
  if e ∈ s.newlyCreatedEntities ∨ e ∈ s.toRemoveEntities ∨
      e ∈ s.modifiedComponents then s
  else { s with modifiedComponents := insert e s.modifiedComponents }

/-- `EntityComponentManagerPrivate::CreateEntityImplementation` (lines
202-224): add a graph vertex, record the newly created entity, clear the
descendant cache, register the entity with storage (result only warned on). -/
def ECM.CreateEntityImplementation (s : ECM) (e : Nat) : ECM :=
  let s1 := { s with entities := s.entities.addVertex e
                     newlyCreatedEntities := insert e s.newlyCreatedEntities
                     descendantCacheDom := ∅
                     descendantCacheVal := fun _ => ∅ }
  { s1 with entityCompStorage := (s1.entityCompStorage.addEntity e).2 }

/-- `EntityComponentManager::CreateEntity` (lines 187-199): pre-increment
the 64-bit counter; at the sentinel maximum warn and return without
creating. -/
def ECM.CreateEntity (s : ECM) : Nat × ECM :=
  let entity := (s.entityCount + 1) % 2 ^ 64
  let s1 := { s with entityCount := entity }
  if entity = maxEntity then (entity, s1)
  else (entity, s1.CreateEntityImplementation entity)

/-- `EntityComponentManager::ClearNewlyCreatedEntities` (lines 227-236);
the per-view `ResetNewEntityState` touches only view-internal bookkeeping. -/
def ECM.ClearNewlyCreatedEntities (s : ECM) : ECM :=
  { s with newlyCreatedEntities := ∅ }

/-- `EntityComponentManager::ClearRemovedComponents` (lines 239-243). -/
def ECM.ClearRemovedComponents (s : ECM) : ECM :=
  { s with removedComponents := fun _ => ∅ }

/-- `EntityComponentManager::RequestRemoveEntity` (lines 257-285).  The
recursive branch runs `InsertEntityRecursive`, whose resulting set is the
entity together with its descendants along child edges — the set `reach`
computes (the C++ depth-first recursion produces exactly this set whenever
it terminates).  The per-view `MarkEntityToRemove` calls touch only
view-internal bookkeeping. -/
def ECM.RequestRemoveEntity (s : ECM) (e : Nat) (recursive : Bool) : ECM :=
  let tmp := if recursive then s.entities.reach e else {e}
  { s with toRemoveEntities := s.toRemoveEntities ∪ tmp }

/-- `EntityComponentManager::RequestRemoveEntities` (lines 288-295); the
subsequent `RebuildViews` resets view-internal bookkeeping but neither adds
nor removes a registry entry. -/
def ECM.RequestRemoveEntities (s : ECM) : ECM :=
  { s with removeAllEntities := true }

/-- One iteration of the removal loop of `ProcessRemoveEntityRequests`
(lines 322-347): skip non-existent entities; remove the graph vertex; drop
storage and the `entityComponents` entry when one exists. -/
def ECM.removeOneEntity (s : ECM) (e : Nat) : ECM :=
  if ¬ s.HasEntity e then s
  else
    let s1 := { s with entities := s.entities.removeVertex e }
    if e ∈ s1.entityComponentsDom then
      { s1 with entityCompStorage := s1.entityCompStorage.removeEntity e
                entityComponentsDom := s1.entityComponentsDom.erase e
                entityComponentsVal := Function.update s1.entityComponentsVal e ∅
                entityComponentsDirty := true }
    else s1

/-- `EntityComponentManager::ProcessRemoveEntityRequests` (lines 298-354).
The `toRemove` iteration order of the C++ hash set is unspecified; the
model iterates ascending ids (iterations for distinct entities commute).
The descendant cache is cleared on both branches. -/
def ECM.ProcessRemoveEntityRequests (s : ECM) : ECM :=
  let s1 :=
    if s.removeAllEntities then
      { s with removeAllEntities := false
               entities := EntityGraph.empty
               entityComponentsDom := ∅
               entityComponentsVal := fun _ => ∅
               toRemoveEntities := ∅
               entityComponentsDirty := true
               entityCompStorage := Storage.empty
               views := [] }
    else
      let s' := (ascList s.toRemoveEntities).foldl ECM.removeOneEntity s
      { s' with toRemoveEntities := ∅ }
  { s1 with descendantCacheDom := ∅, descendantCacheVal := fun _ => ∅ }

/-- `EntityComponentManager::EntityHasComponentType` (lines 422-435). -/
def ECM.EntityHasComponentType (s : ECM) (e t : Nat) : Bool :=
  s.HasEntity e && decide (e ∈ s.entityComponentsDom) &&
    decide (t ∈ s.entityComponentsVal e)

/-- `EntityComponentManager::RemoveComponent` by type id (lines 357-402).
Erasing an entity from a change map whose inner set thereby becomes empty
also erases the map entry in the C++; the function-valued model keeps no
entry for an empty set, so the two coincide.  The per-view
`NotifyComponentRemoval` calls touch only view-internal bookkeeping. -/
def ECM.RemoveComponent (s : ECM) (e t : Nat) : Bool × ECM :=
  if ¬ s.EntityHasComponentType e t then (false, s)
  else
    let s1 := { s with
      entityComponentsVal :=
        Function.update s.entityComponentsVal e ((s.entityComponentsVal e).erase t)
      entityComponentsDirty := true
      oneTimeChangedComponents :=
        Function.update s.oneTimeChangedComponents t
          ((s.oneTimeChangedComponents t).erase e)
      periodicChangedComponents :=
        Function.update s.periodicChangedComponents t
          ((s.periodicChangedComponents t).erase e) }
    let s2 := { s1 with
      entityCompStorage := (s1.entityCompStorage.removeComponent e t).2 }
    let s3 := s2.AddModifiedComponent e
    (true,
      { s3 with removedComponents :=
          Function.update s3.removedComponents e (insert t (s3.removedComponents e)) })

/-- `EntityComponentManager::IsNewEntity` (lines 438-443). -/
def ECM.IsNewEntity (s : ECM) (e : Nat) : Bool :=
  decide (e ∈ s.newlyCreatedEntities)

/-- `EntityComponentManager::IsMarkedForRemoval` (lines 446-455). -/
def ECM.IsMarkedForRemoval (s : ECM) (e : Nat) : Bool :=
  s.removeAllEntities || decide (e ∈ s.toRemoveEntities)

/-- `EntityComponentManager::ComponentState` (lines 458-488): the one-time
set dominates the periodic set. -/
def ECM.ComponentStateOf (s : ECM) (e t : Nat) : ComponentState :=
  if e ∉ s.entityComponentsDom then ComponentState.NoChange
  else if t ∉ s.entityComponentsVal e then ComponentState.NoChange
  else if e ∈ s.oneTimeChangedComponents t then ComponentState.OneTimeChange
  else if e ∈ s.periodicChangedComponents t then ComponentState.PeriodicChange
  else ComponentState.NoChange

/-- `EntityComponentManager::ParentEntity` (lines 531-539): the first
parent delivered by `AdjacentsTo`, or `kNullEntity = 0`. -/
def ECM.ParentEntity (s : ECM) (e : Nat) : Nat :=
  match s.entities.adjacentsTo e with
  | [] => 0
  | p :: _ => p

/-- `EntityComponentManager::SetParentEntity` (lines 542-562): remove every
incoming edge of the child; a null parent means success; otherwise report
whether the edge was created. -/
def ECM.SetParentEntity (s : ECM) (c p : Nat) : Bool × ECM :=
  let s1 := { s with entities :=
    { s.entities with edges := s.entities.edges.filter (fun ed => decide (ed.2 ≠ c)) } }
  if p = 0 then (true, s1)
  else
    let r := s1.entities.addEdge p c
    (r.2, { s1 with entities := r.1 })

/-- `EntityComponentManager::HasComponentType` (lines 681-686). -/
def ECM.HasComponentType (s : ECM) (t : Nat) : Bool :=
  decide (t ∈ s.createdCompTypes)

/-- `EntityComponentManager::CreateComponentImplementation` (lines
565-635).  `F` is the component factory's `HasType` predicate (the factory
is external, spec section 6); `Factory::New(type, seed)` clones the seed, so
the instantiated payload is `data`.  The ledger insertions happen eagerly,
before storage accepts the component; note that the one-time insertion does
not erase a periodic entry of the same pair.  The view updates of the
`NEW_ADDITION` and `RE_ADDITION` outcomes touch only view-internal
bookkeeping. -/
def ECM.CreateComponentImplementation (F : Nat → Bool) (s : ECM)
    (e t : Nat) (data : String) : Bool × ECM :=
  if ¬ s.HasEntity e then (false, s)
  else if ¬ s.HasComponentType t ∧ ¬ F t then (false, s)
  else
    let s1 := s.AddModifiedComponent e
    let s2 := { s1 with
      entityComponentsDom := insert e s1.entityComponentsDom
      entityComponentsVal :=
        Function.update s1.entityComponentsVal e (insert t (s1.entityComponentsVal e))
      oneTimeChangedComponents :=
        Function.update s1.oneTimeChangedComponents t
          (insert e (s1.oneTimeChangedComponents t))
      entityComponentsDirty := true }
    let r := s2.entityCompStorage.addComponent e t data
    let s3 := { s2 with entityCompStorage := r.2 }
    match r.1 with
    | ComponentAdditionResult.FAILED_ADDITION => (false, s3)
    | ComponentAdditionResult.NEW_ADDITION =>
        (false, { s3 with createdCompTypes := insert t s3.createdCompTypes })
    | _ => (true, { s3 with createdCompTypes := insert t s3.createdCompTypes })

/-- `EntityComponentManager::Descendants` (lines 1341-1363): serve a cached
entry if one exists; a non-existent entity yields the empty set without
caching; otherwise run the breadth-first sort and cache the result. -/
def ECM.Descendants (s : ECM) (e : Nat) : Finset Nat × ECM :=
  if e ∈ s.descendantCacheDom then (s.descendantCacheVal e, s)
  else if ¬ s.HasEntity e then (∅, s)
  else
    let d := s.entities.reach e
    (d, { s with descendantCacheDom := insert e s.descendantCacheDom
                 descendantCacheVal := Function.update s.descendantCacheVal e d })

/-- `EntityComponentManager::SetAllComponentsUnchanged` (lines 1366-1371). -/
def ECM.SetAllComponentsUnchanged (s : ECM) : ECM :=
  { s with periodicChangedComponents := fun _ => ∅
           oneTimeChangedComponents := fun _ => ∅
           modifiedComponents := ∅ }

/-- `EntityComponentManager::SetChanged` (lines 1374-1412): a no-op for a
pair the entity index does not know; otherwise recording one change kind
erases the other (and `NoChange` erases both), then the entity is added to
the modified list. -/
def ECM.SetChanged (s : ECM) (e t : Nat) (c : ComponentState) : ECM :=
  if e ∉ s.entityComponentsDom then s
  else if t ∉ s.entityComponentsVal e then s
  else
    let s1 :=
      match c with
      | ComponentState.PeriodicChange =>
          { s with
            periodicChangedComponents :=
              Function.update s.periodicChangedComponents t
                (insert e (s.periodicChangedComponents t))
            oneTimeChangedComponents :=
              Function.update s.oneTimeChangedComponents t
                ((s.oneTimeChangedComponents t).erase e) }
      | ComponentState.OneTimeChange =>
          { s with
            periodicChangedComponents :=
              Function.update s.periodicChangedComponents t
                ((s.periodicChangedComponents t).erase e)
            oneTimeChangedComponents :=
              Function.update s.oneTimeChangedComponents t
                (insert e (s.oneTimeChangedComponents t)) }
      | ComponentState.NoChange =>
          { s with
            periodicChangedComponents :=
              Function.update s.periodicChangedComponents t
                ((s.periodicChangedComponents t).erase e)
            oneTimeChangedComponents :=
              Function.update s.oneTimeChangedComponents t
                ((s.oneTimeChangedComponents t).erase e) }
    s1.AddModifiedComponent e

/-- `EntityComponentManager::SetEntityCreateOffset` (lines 1426-1436). -/
def ECM.SetEntityCreateOffset (s : ECM) (n : Nat) : ECM :=
  { s with entityCount := n }

/-- `EntityComponentManagerPrivate::SetRemovedComponentsMsgs`, flat form
(lines 746-768): append, for every removed component of the entity passing
the filter, an entry whose content is the one-character string `" "` (the
C++ comment reads "Empty data is needed for the component to be processed
afterwards": flat-form `SetState` skips components with an empty string).
Iteration order of the C++ hash set is unspecified; the model uses the
ascending order. -/
def ECM.SetRemovedComponentsMsgsFlat (s : ECM) (e : Nat)
    (em : SerializedEntity) (types : Finset Nat) : SerializedEntity :=
  let rem := ((ascList (s.removedComponents e)).filter
    (fun t => decide (types = ∅ ∨ t ∈ types))).map
    (fun t => (⟨t, " ", true⟩ : SerializedComponent))
  { em with components := em.components ++ rem }

/-- `EntityComponentManager::AddEntityToMessage`, flat form (lines
817-861): always append an entity message; an entity without an
`entityComponents` entry contributes only its id; otherwise flag pending
removal, serialize each present component of the requested types (all of
them when the filter is empty; a component the index lists but storage
lacks would be a null-pointer dereference in the C++ and is skipped here —
spec section 3 requires index and storage to agree), then append the
removed-component entries. -/
def ECM.AddEntityToMessageFlat (s : ECM) (msg : SerializedState) (e : Nat)
    (types : Finset Nat) : SerializedState :=
  let em0 : SerializedEntity := ⟨e, false, []⟩
  if e ∉ s.entityComponentsDom then { entities := msg.entities ++ [em0] }
  else
    let em1 := if e ∈ s.toRemoveEntities then { em0 with remove := true } else em0
    let typs := if types = ∅ then s.entityComponentsVal e else types
    let em2 := (ascList typs).foldl
      (fun em t =>
        if t ∉ s.entityComponentsVal e then em
        else
          match s.entityCompStorage.validComponent e t with
          | none => em
          | some b => { em with components := em.components ++ [⟨t, b, false⟩] })
      em1
    { entities := msg.entities ++ [s.SetRemovedComponentsMsgsFlat e em2 types] }

/-- `EntityComponentManager::ChangedState`, flat form (lines 980-1003):
newly created entities, then entities pending removal, then entities with
modified components (each hash set iterated in ascending order here). -/
def ECM.ChangedStateFlat (s : ECM) : SerializedState :=
  let m1 := (ascList s.newlyCreatedEntities).foldl
    (fun m e => s.AddEntityToMessageFlat m e ∅) ⟨[]⟩
  let m2 := (ascList s.toRemoveEntities).foldl
    (fun m e => s.AddEntityToMessageFlat m e ∅) m1
  (ascList s.modifiedComponents).foldl
    (fun m e => s.AddEntityToMessageFlat m e ∅) m2

/-- `EntityComponentManager::State`, flat form (lines 1075-1092): every
entity of the `entityComponents` index passing the entity filter (ascending
order models the hash map's iteration order). -/
def ECM.StateFlat (s : ECM) (ents types : Finset Nat) : SerializedState :=
  ((ascList s.entityComponentsDom).filter
      (fun e => decide (ents = ∅ ∨ e ∈ ents))).foldl
    (fun m e => s.AddEntityToMessageFlat m e types) ⟨[]⟩

/-- `EntityComponentManagerPrivate::SetRemovedComponentsMsgs`, map form
(lines 771-814): nothing to do without removed components; otherwise make
sure the entity has an entry, then store a `{" ", type, remove}` component
message under each removed type passing the filter, replacing any entry
already at that key. -/
def ECM.SetRemovedComponentsMsgsMap (s : ECM) (e : Nat)
    (msg : SerializedStateMap) (types : Finset Nat) : SerializedStateMap :=
  if s.removedComponents e = ∅ then msg
  else
    let msg1 := msg.getOrInsert e
    (ascList (s.removedComponents e)).foldl
      (fun m t =>
        if ¬ (types = ∅ ∨ t ∈ types) then m
        else
          m.modifyEnt e (fun em =>
            if (em.components.lookup t).isSome then
              let cs := em.components.map
                (fun q => if q.1 = t then (q.1, ⟨t, " ", true⟩) else q)
              { em with components := cs }
            else { em with components := em.components ++ [(t, ⟨t, " ", true⟩)] }))
      msg1

/-- The body of the per-type loop of the map-form `AddEntityToMessage`
(lines 905-972), factored out so the loop can be reasoned about step by
step: skip a type the entity lacks; when `full` is false skip an unchanged
pair (see the doc comment of `ECM.AddEntityToMessageMap` on the C++
periodic-change test); otherwise upsert the entity entry and the component
entry and store the serialized payload. -/
def ECM.addCompToMsgMap (s : ECM) (e : Nat) (full : Bool)
    (m : SerializedStateMap) (t : Nat) : SerializedStateMap :=
  if t ∉ s.entityComponentsVal e then m
  else if ¬ full ∧ ¬ (e ∈ s.oneTimeChangedComponents t ∨
      e ∈ s.periodicChangedComponents t) then m
  else
    match s.entityCompStorage.validComponent e t with
    | none => m
    | some b =>
      let m1 := m.getOrInsert e
      m1.modifyEnt e (fun em =>
        if (em.components.lookup t).isSome then
          let cs := em.components.map
            (fun q => if q.1 = t then (q.1, { q.2 with component := b }) else q)
          { em with components := cs }
        else { em with components := em.components ++ [(t, ⟨t, b, false⟩)] })

/-- `EntityComponentManager::AddEntityToMessage`, map form (lines 864-977).
An entity without an `entityComponents` entry returns immediately, leaving
the message untouched.  When `full` is false, an unchanged component is
skipped.  The C++ periodic-change test at line 934 compares
`periodicIter->second.find(_entity)` against `oneTimeIter->second.end()`;
with the deployed standard library every unordered-set `end()` iterator is
the same null sentinel, so the test succeeds exactly when the entity is in
the periodic set, which is how it is rendered here (when `oneTimeIter` is
the outer map's end iterator the C++ dereference is itself undefined, with
the same de-facto behavior).  A component the index lists but storage lacks
would dereference a null pointer at emission in the C++ and is skipped. -/
def ECM.AddEntityToMessageMap (s : ECM) (msg : SerializedStateMap) (e : Nat)
    (types : Finset Nat) (full : Bool) : SerializedStateMap :=
  if e ∉ s.entityComponentsDom then msg
  else
    let msg1 :=
      if e ∈ s.toRemoveEntities then
        (msg.getOrInsert e).modifyEnt e (fun em => { em with remove := true })
      else msg
    let typs := if types = ∅ then s.entityComponentsVal e else types
    let msg2 := (ascList typs).foldl (s.addCompToMsgMap e full) msg1
    s.SetRemovedComponentsMsgsMap e msg2 types

/-- `EntityComponentManager::ChangedState`, map form (lines 1006-1026),
applied to an initially empty message: newly created entities, entities
pending removal, then entities with modified components, each added with an
empty type filter and `full = true` (the declaration defaults). -/
def ECM.ChangedStateMap (s : ECM) : SerializedStateMap :=
  let m1 := (ascList s.newlyCreatedEntities).foldl
    (fun m e => s.AddEntityToMessageMap m e ∅ true) ⟨[]⟩
  let m2 := (ascList s.toRemoveEntities).foldl
    (fun m e => s.AddEntityToMessageMap m e ∅ true) m1
  (ascList s.modifiedComponents).foldl
    (fun m e => s.AddEntityToMessageMap m e ∅ true) m2

/-- `EntityComponentManager::State`, map form (lines 1095-1141), applied to
an initially empty message.  The C++ shards the `entityComponents` index
over worker threads, each of which serializes its share into a private map
message; the merged result assigns, for every processed entity, the entity
message built by that entity's worker — which is what a sequential fold
over the index produces, since `AddEntityToMessage` touches no key other
than the processed entity's. -/
def ECM.StateMap (s : ECM) (ents types : Finset Nat) (full : Bool) :
    SerializedStateMap :=
  ((ascList s.entityComponentsDom).filter
      (fun e => decide (ents = ∅ ∨ e ∈ ents))).foldl
    (fun m e => s.AddEntityToMessageMap m e types full) ⟨[]⟩

/-- One component message of the flat-form `SetState` loop (lines
1169-1245).  An empty byte string is skipped; a factory-unknown type is
skipped (with a once-per-type warning); otherwise the payload is
deserialized (yielding its byte string, whose reported type id is the
message's type), the component is unconditionally removed, a removal entry
stops there, and a now-absent component is created — a still-present one
hits the `Internal error` branch, which changes nothing. -/
def ECM.setStateComponentFlat (F : Nat → Bool) (s : ECM) (e : Nat)
    (cm : SerializedComponent) : ECM :=
  if cm.component = "" then s
  else if ¬ F cm.type then s
  else
    let s1 := (s.RemoveComponent e cm.type).2
    if cm.remove then s1
    else
      match s1.entityCompStorage.validComponent e cm.type with
      | some _ => s1
      | none => (s1.CreateComponentImplementation F e cm.type cm.component).2

/-- One entity message of the flat-form `SetState` loop (lines 1149-1246):
a removal request short-circuits (`RequestRemoveEntity` with its default
recursive flag); otherwise the entity is created when absent and its
component messages are applied in order. -/
def ECM.setStateEntityFlat (F : Nat → Bool) (s : ECM)
    (em : SerializedEntity) : ECM :=
  if em.remove then s.RequestRemoveEntity em.id true
  else
    let s1 := if ¬ s.HasEntity em.id then s.CreateEntityImplementation em.id else s
    em.components.foldl (fun s' cm => s'.setStateComponentFlat F em.id cm) s1

/-- `EntityComponentManager::SetState`, flat form (lines 1144-1247). -/
def ECM.SetStateFlat (F : Nat → Bool) (s : ECM) (msg : SerializedState) : ECM :=
  msg.entities.foldl (fun s' em => s'.setStateEntityFlat F em) s

/-! ## Helper lemmas -/

theorem removeOneEntity_removeAll (s : ECM) (e : Nat) :
    (s.removeOneEntity e).removeAllEntities = s.removeAllEntities := by
  unfold ECM.removeOneEntity
  split
  · rfl
  · dsimp only
    split <;> rfl

theorem foldl_removeOneEntity_removeAll (l : List Nat) (s : ECM) :
    (l.foldl ECM.removeOneEntity s).removeAllEntities = s.removeAllEntities := by
  induction l generalizing s with
  | nil => rfl
  | cons x xs ih => rw [List.foldl_cons, ih, removeOneEntity_removeAll]

theorem filter_ne_then_eq_nil (l : List (Nat × Nat)) (c : Nat) :
    ((l.filter (fun ed => decide (ed.2 ≠ c))).filter
      (fun ed => decide (ed.2 = c))) = [] := by
  rw [List.filter_filter]
  apply List.filter_eq_nil_iff.mpr
  intro ed _
  simp only [Bool.and_eq_true, decide_eq_true_eq]
  intro h
  exact absurd h.1 h.2

/-! ## Claims -/

/-- C6: after `RequestRemoveEntities()` followed by
`ProcessRemoveEntityRequests()`, starting from any ECM state, `EntityCount()`
is `0` and the view registry is empty; and after any call to
`ProcessRemoveEntityRequests()`, the `toRemove` set is empty and the
`removeAll` flag is false. -/
theorem claim6_remove_processing :
    (∀ s : ECM,
      (s.RequestRemoveEntities.ProcessRemoveEntityRequests).EntityCount = 0 ∧
      (s.RequestRemoveEntities.ProcessRemoveEntityRequests).views = []) ∧
    (∀ s : ECM,
      (s.ProcessRemoveEntityRequests).toRemoveEntities = ∅ ∧
      (s.ProcessRemoveEntityRequests).removeAllEntities = false) := by
  constructor
  · intro s
    simp [ECM.RequestRemoveEntities, ECM.ProcessRemoveEntityRequests,
      ECM.EntityCount, EntityGraph.empty]
  · intro s
    unfold ECM.ProcessRemoveEntityRequests
    cases hb : s.removeAllEntities
    · simp only [hb, Bool.false_eq_true, if_false,
        foldl_removeOneEntity_removeAll]
      exact ⟨trivial, trivial⟩
    · simp [hb]

/-- C8: for every child `c` and parent `p`, if `p ≠ kNullEntity` and the
edge creation succeeds then `ParentEntity(c)` returns `p` immediately after
`SetParentEntity(c, p)`; and after `SetParentEntity(c, kNullEntity)`,
`ParentEntity(c)` returns `kNullEntity` (all previous incoming edges of `c`
having been removed first). -/
theorem claim8_set_parent_then_parent :
    (∀ (s : ECM) (c p : Nat), p ≠ 0 → (s.SetParentEntity c p).1 = true →
      ((s.SetParentEntity c p).2).ParentEntity c = p) ∧
    (∀ (s : ECM) (c : Nat), ((s.SetParentEntity c 0).2).ParentEntity c = 0) := by
  constructor
  · intro s c p hp hsucc
    unfold ECM.SetParentEntity at hsucc ⊢
    simp only [hp, if_false] at hsucc ⊢
    unfold EntityGraph.addEdge at hsucc ⊢
    by_cases hmem : p ∈ s.entities.verts ∧ c ∈ s.entities.verts
    · simp only [hmem, and_self, if_true] at hsucc ⊢
      unfold ECM.ParentEntity EntityGraph.adjacentsTo
      rw [List.filter_append, filter_ne_then_eq_nil]
      simp
    · simp only [if_neg hmem] at hsucc
      exact absurd hsucc (by simp)
  · intro s c
    have h0 : s.SetParentEntity c 0 =
        (true, { s with entities := { s.entities with
          edges := s.entities.edges.filter (fun ed => decide (ed.2 ≠ c)) } }) := by
      unfold ECM.SetParentEntity
      simp
    rw [h0]
    unfold ECM.ParentEntity EntityGraph.adjacentsTo
    dsimp only
    rw [filter_ne_then_eq_nil]
    rfl

/-- Witness for C8 at a concrete state: two entities, reparent 2 under 1,
then orphan it. -/
theorem claim8_witness :
    ((((ECM.fresh.CreateEntity).2.CreateEntity).2.SetParentEntity 2 1).2).ParentEntity 2 = 1 ∧
    (((((ECM.fresh.CreateEntity).2.CreateEntity).2.SetParentEntity 2 1).2.SetParentEntity 2 0).2).ParentEntity 2 = 0 := by
  constructor
  · exact claim8_set_parent_then_parent.1 _ 2 1 (by decide) (by decide)
  · exact claim8_set_parent_then_parent.2 _ 2

theorem lookup_append_singleton_ne {β : Type} (l : List (Nat × β)) (k a : Nat)
    (v : β) (h : a ≠ k) : (l ++ [(k, v)]).lookup a = l.lookup a := by
  induction l with
  | nil => simp [List.lookup, beq_false_of_ne h]
  | cons p l ih =>
    rcases p with ⟨b, w⟩
    by_cases hab : a = b
    · subst hab
      simp [List.lookup]
    · simp [List.lookup, beq_false_of_ne hab, ih]

theorem lookup_map_modify_ne {β : Type} (l : List (Nat × β)) (k a : Nat)
    (f : β → β) (h : a ≠ k) :
    (l.map (fun p => if p.1 = k then (p.1, f p.2) else p)).lookup a = l.lookup a := by
  induction l with
  | nil => rfl
  | cons p l ih =>
    rcases p with ⟨b, w⟩
    by_cases hbk : b = k
    · subst hbk
      simp only [List.map_cons, if_pos rfl]
      simp [List.lookup, beq_false_of_ne h, ih]
    · simp only [List.map_cons, if_neg hbk]
      by_cases hab : a = b
      · subst hab
        simp [List.lookup]
      · simp [List.lookup, beq_false_of_ne hab, ih]

theorem lookup_getOrInsert_ne (msg : SerializedStateMap) (k a : Nat)
    (h : a ≠ k) : ((msg.getOrInsert k).entities.lookup a) = msg.entities.lookup a := by
  unfold SerializedStateMap.getOrInsert
  split
  · rfl
  · exact lookup_append_singleton_ne _ _ _ _ h

theorem lookup_modifyEnt_ne (msg : SerializedStateMap) (k a : Nat)
    (f : SerializedEntityMap → SerializedEntityMap) (h : a ≠ k) :
    ((msg.modifyEnt k f).entities.lookup a) = msg.entities.lookup a :=
  lookup_map_modify_ne _ _ _ _ h

theorem foldl_lookup_pres {α : Type} (step : SerializedStateMap → α → SerializedStateMap)
    (l : List α) (e : Nat)
    (h : ∀ m t, t ∈ l → ((step m t).entities.lookup e) = m.entities.lookup e)
    (m : SerializedStateMap) :
    (((l.foldl step m).entities.lookup e)) = m.entities.lookup e := by
  induction l generalizing m with
  | nil => rfl
  | cons x xs ih =>
    rw [List.foldl_cons,
      ih (fun m' t ht => h m' t (List.mem_cons_of_mem x ht)) (step m x),
      h m x (List.mem_cons_self x xs)]

theorem setRemovedMsgsMap_lookup_ne (s : ECM) (k : Nat) (msg : SerializedStateMap)
    (types : Finset Nat) (a : Nat) (h : a ≠ k) :
    ((s.SetRemovedComponentsMsgsMap k msg types).entities.lookup a) =
      msg.entities.lookup a := by
  unfold ECM.SetRemovedComponentsMsgsMap
  split
  · rfl
  · rw [foldl_lookup_pres]
    · exact lookup_getOrInsert_ne _ _ _ h
    · intro m t _
      dsimp only
      split
      · rfl
      · exact lookup_modifyEnt_ne _ _ _ _ h

theorem addEntityToMessageMap_lookup_ne (s : ECM) (msg : SerializedStateMap)
    (k : Nat) (types : Finset Nat) (full : Bool) (a : Nat) (h : a ≠ k) :
    ((s.AddEntityToMessageMap msg k types full).entities.lookup a) =
      msg.entities.lookup a := by
  unfold ECM.AddEntityToMessageMap
  split
  · rfl
  · rw [setRemovedMsgsMap_lookup_ne _ _ _ _ _ h, foldl_lookup_pres]
    · split
      · rw [lookup_modifyEnt_ne _ _ _ _ h, lookup_getOrInsert_ne _ _ _ h]
      · rfl
    · intro m t _
      unfold ECM.addCompToMsgMap
      split
      · rfl
      · split
        · rfl
        · split
          · rfl
          · rw [lookup_modifyEnt_ne _ _ _ _ h, lookup_getOrInsert_ne _ _ _ h]

theorem addEntityToMessageMap_of_not_mem (s : ECM) (msg : SerializedStateMap)
    (e : Nat) (types : Finset Nat) (full : Bool)
    (h : e ∉ s.entityComponentsDom) :
    s.AddEntityToMessageMap msg e types full = msg := by
  unfold ECM.AddEntityToMessageMap
  exact if_pos h

theorem addEntityToMessageMap_lookup_of_not_mem (s : ECM)
    (msg : SerializedStateMap) (k : Nat) (types : Finset Nat) (full : Bool)
    (a : Nat) (h : a ∉ s.entityComponentsDom) :
    ((s.AddEntityToMessageMap msg k types full).entities.lookup a) =
      msg.entities.lookup a := by
  by_cases hk : a = k
  · subst hk
    rw [addEntityToMessageMap_of_not_mem s msg a types full h]
  · exact addEntityToMessageMap_lookup_ne s msg k types full a hk

/-- C10: an entity without an entry in the entity/component index leaves
the map-form `AddEntityToMessage` without modifying the message at all, and
consequently never appears in the map-form `ChangedState` nor in the
map-form `State`, even when it is newly created or marked for removal. -/
theorem claim10_indexless_entity_absent :
    (∀ (s : ECM) (msg : SerializedStateMap) (e : Nat) (types : Finset Nat)
      (full : Bool), e ∉ s.entityComponentsDom →
        s.AddEntityToMessageMap msg e types full = msg) ∧
    (∀ (s : ECM) (e : Nat), e ∉ s.entityComponentsDom →
        ((s.ChangedStateMap).entities.lookup e) = none) ∧
    (∀ (s : ECM) (e : Nat) (ents types : Finset Nat) (full : Bool),
      e ∉ s.entityComponentsDom →
        ((s.StateMap ents types full).entities.lookup e) = none) := by
  refine ⟨addEntityToMessageMap_of_not_mem, ?_, ?_⟩
  · intro s e h
    unfold ECM.ChangedStateMap
    rw [foldl_lookup_pres, foldl_lookup_pres, foldl_lookup_pres]
    · rfl
    all_goals
      intro m t _
      exact addEntityToMessageMap_lookup_of_not_mem s m t ∅ true e h
  · intro s e ents types full h
    unfold ECM.StateMap
    rw [foldl_lookup_pres]
    · rfl
    · intro m t _
      exact addEntityToMessageMap_lookup_of_not_mem s m t types full e h

/-- Witness for C10: in a state whose entity `1` was created but never
given a component, the message functions ignore entity `1`. -/
theorem claim10_witness :
    (1 ∉ ((ECM.fresh.CreateEntity).2).entityComponentsDom ∧
      ECM.AddEntityToMessageMap ((ECM.fresh.CreateEntity).2) ⟨[]⟩ 1 ∅ false = ⟨[]⟩) ∧
    ((((ECM.fresh.CreateEntity).2).ChangedStateMap).entities.lookup 1 = none) ∧
    ((((ECM.fresh.CreateEntity).2).StateMap ∅ ∅ true).entities.lookup 1 = none) :=
  ⟨⟨by decide,
      claim10_indexless_entity_absent.1 _ ⟨[]⟩ 1 ∅ false (by decide)⟩,
    claim10_indexless_entity_absent.2.1 _ 1 (by decide),
    claim10_indexless_entity_absent.2.2 _ 1 ∅ ∅ true (by decide)⟩

theorem foldl_serializedEntity_id (step : SerializedEntity → Nat → SerializedEntity)
    (h : ∀ em t, (step em t).id = em.id) (l : List Nat) (em : SerializedEntity) :
    (l.foldl step em).id = em.id := by
  induction l generalizing em with
  | nil => rfl
  | cons x xs ih => rw [List.foldl_cons, ih, h]

/-- C5 counterexample: in a state where entity `1` had its type-`10`
component removed, the flat-form `AddEntityToMessage` appends a removal
entry whose content is the one-character string `" "`, not the empty
byte-string the claim requires. -/
theorem claim5_counterexample :
    ((((ECM.CreateComponentImplementation (fun t => decide (t = 10))
          (ECM.fresh.CreateEntity).2 1 10 "x").2.RemoveComponent 1 10).2
        ).AddEntityToMessageFlat ⟨[]⟩ 1 ∅).entities =
      [⟨1, false, [⟨10, " ", true⟩]⟩] ∧ (" " : String) ≠ "" := by
  constructor
  · decide
  · decide

/-- C5 amended: for every component type recorded as removed for an entity
that has an `entityComponents` entry and that passes the types filter, the
flat-form `AddEntityToMessage` appends an entity message carrying a
component entry with content `" "` — a single space, deliberately non-empty
so that the apply path does not skip it — `remove = true`, and the removed
component's type id. -/
theorem claim5_removal_entry_space :
    ∀ (s : ECM) (msg : SerializedState) (e : Nat) (types : Finset Nat) (t : Nat),
      e ∈ s.entityComponentsDom → t ∈ s.removedComponents e →
      (types = ∅ ∨ t ∈ types) →
      ∃ em : SerializedEntity,
        (s.AddEntityToMessageFlat msg e types).entities = msg.entities ++ [em] ∧
        em.id = e ∧ (⟨t, " ", true⟩ : SerializedComponent) ∈ em.components := by
  intro s msg e types t hDom hRem hFilt
  unfold ECM.AddEntityToMessageFlat
  rw [if_neg (by simpa using hDom)]
  refine ⟨_, rfl, ?_, ?_⟩
  · unfold ECM.SetRemovedComponentsMsgsFlat
    dsimp only
    rw [foldl_serializedEntity_id]
    · split <;> rfl
    · intro em t'
      dsimp only
      split
      · rfl
      · split <;> rfl
  · unfold ECM.SetRemovedComponentsMsgsFlat
    dsimp only
    refine List.mem_append_right _ ?_
    refine List.mem_map.mpr ⟨t, ?_, rfl⟩
    refine List.mem_filter.mpr ⟨?_, decide_eq_true hFilt⟩
    exact (mem_ascList _ _).mpr hRem

/-- Witness for the amended C5 at the counterexample's state. -/
theorem claim5_witness :
    ∃ em : SerializedEntity,
      ((((ECM.CreateComponentImplementation (fun t => decide (t = 10))
            (ECM.fresh.CreateEntity).2 1 10 "x").2.RemoveComponent 1 10).2
          ).AddEntityToMessageFlat (SerializedState.mk []) 1 ∅).entities =
        (SerializedState.mk []).entities ++ [em] ∧
      em.id = 1 ∧ (⟨10, " ", true⟩ : SerializedComponent) ∈ em.components :=
  claim5_removal_entry_space _ (SerializedState.mk []) 1 ∅ 10
    (by decide) (by decide) (Or.inl rfl)

theorem addModified_oneTime (s : ECM) (e : Nat) :
    (s.AddModifiedComponent e).oneTimeChangedComponents =
      s.oneTimeChangedComponents := by
  unfold ECM.AddModifiedComponent
  split <;> rfl

theorem addModified_periodic (s : ECM) (e : Nat) :
    (s.AddModifiedComponent e).periodicChangedComponents =
      s.periodicChangedComponents := by
  unfold ECM.AddModifiedComponent
  split <;> rfl

/-- Per-pair exclusivity of the two change ledgers: no pair is listed in
both the one-time and the periodic set. -/
def pairDisjoint (s : ECM) : Prop :=
  ∀ t e, e ∈ s.oneTimeChangedComponents t → e ∉ s.periodicChangedComponents t

/-- C1 counterexample: create a component, flag it as a periodic change,
then create it again.  `CreateComponentImplementation` inserts the pair
into the one-time ledger without erasing the periodic entry, so the pair
`(entity 1, type 10)` ends up in both ledgers at once. -/
theorem claim1_counterexample :
    1 ∈ ((ECM.CreateComponentImplementation (fun t => decide (t = 10))
        ((ECM.CreateComponentImplementation (fun t => decide (t = 10))
            (ECM.fresh.CreateEntity).2 1 10 "x").2.SetChanged
          1 10 ComponentState.PeriodicChange) 1 10 "y").2).oneTimeChangedComponents 10 ∧
    1 ∈ ((ECM.CreateComponentImplementation (fun t => decide (t = 10))
        ((ECM.CreateComponentImplementation (fun t => decide (t = 10))
            (ECM.fresh.CreateEntity).2 1 10 "x").2.SetChanged
          1 10 ComponentState.PeriodicChange) 1 10 "y").2).periodicChangedComponents 10 := by
  constructor <;> decide

theorem disjoint_update_of_disjoint (S P : Nat → Finset Nat) (t : Nat)
    (A B : Finset Nat)
    (hdisj : ∀ t' e', e' ∈ S t' → e' ∉ P t')
    (hAB : ∀ e', e' ∈ A → e' ∉ B) :
    ∀ t' e', e' ∈ Function.update S t A t' → e' ∉ Function.update P t B t' := by
  intro t' e'
  rw [Function.update_apply, Function.update_apply]
  by_cases ht : t' = t
  · rw [if_pos ht, if_pos ht]
    exact hAB e'
  · rw [if_neg ht, if_neg ht]
    exact hdisj t' e'

/-- C1 amended: `SetChanged` preserves the per-pair disjointness of the
one-time and periodic ledgers (recording one kind erases the other), and so
does `RemoveComponent` (which erases both); but
`CreateComponentImplementation` inserts the pair into the one-time ledger
without erasing a periodic entry of the same pair, so it does not preserve
disjointness (witnessed by the counterexample). -/
theorem claim1_setchanged_disjoint :
    (∀ (s : ECM) (e t : Nat) (c : ComponentState),
      pairDisjoint s → pairDisjoint (s.SetChanged e t c)) ∧
    (∀ (s : ECM) (e t : Nat),
      pairDisjoint s → pairDisjoint (s.RemoveComponent e t).2) := by
  constructor
  · intro s e t c hdisj
    unfold ECM.SetChanged
    split
    · exact hdisj
    · split
      · exact hdisj
      · rcases c with _ | _ | _
        · intro t' e'
          simp only [addModified_oneTime, addModified_periodic]
          exact disjoint_update_of_disjoint _ _ t _ _ hdisj
            (fun a ha hb => hdisj t a (Finset.mem_of_mem_erase ha)
              (Finset.mem_of_mem_erase hb)) t' e'
        · intro t' e'
          simp only [addModified_oneTime, addModified_periodic]
          refine disjoint_update_of_disjoint _ _ t _ _ hdisj ?_ t' e'
          intro a ha hb
          rcases Finset.mem_erase.mp ha with ⟨hane, hamem⟩
          rcases Finset.mem_insert.mp hb with hb1 | hb2
          · exact hane hb1
          · exact hdisj t a hamem hb2
        · intro t' e'
          simp only [addModified_oneTime, addModified_periodic]
          refine disjoint_update_of_disjoint _ _ t _ _ hdisj ?_ t' e'
          intro a ha hb
          rcases Finset.mem_insert.mp ha with ha1 | ha2
          · exact (Finset.mem_erase.mp hb).1 (ha1 ▸ rfl)
          · exact hdisj t a ha2 (Finset.mem_of_mem_erase hb)
  · intro s e t hdisj
    unfold ECM.RemoveComponent
    split
    · exact hdisj
    · intro t' e'
      simp only [addModified_oneTime, addModified_periodic]
      exact disjoint_update_of_disjoint _ _ t _ _ hdisj
        (fun a ha hb => hdisj t a (Finset.mem_of_mem_erase ha)
          (Finset.mem_of_mem_erase hb)) t' e'

/-- Witness for the amended C1: apply the preservation facts at a concrete
state satisfying the disjointness hypothesis. -/
theorem claim1_witness :
    pairDisjoint ECM.fresh ∧
    pairDisjoint (ECM.fresh.SetChanged 1 10 ComponentState.PeriodicChange) ∧
    pairDisjoint ((ECM.fresh.RemoveComponent 1 10).2) := by
  have hfresh : pairDisjoint ECM.fresh := by
    intro t e h
    simp [ECM.fresh] at h
  exact ⟨hfresh,
    claim1_setchanged_disjoint.1 ECM.fresh 1 10 ComponentState.PeriodicChange hfresh,
    claim1_setchanged_disjoint.2 ECM.fresh 1 10 hfresh⟩

/-- Disjointness of the modified-components ledger from the newly-created
and to-remove ledgers. -/
def modDisjoint (s : ECM) : Prop :=
  ∀ e, e ∈ s.modifiedComponents →
    e ∉ s.newlyCreatedEntities ∧ e ∉ s.toRemoveEntities

/-- C2 counterexample: create entity 1, clear the newly-created ledger,
attach a component (which records entity 1 as modified), then request its
removal.  `RequestRemoveEntity` does not purge `modifiedComponents`, so
entity 1 is simultaneously in `modifiedComponents` and `toRemoveEntities`. -/
theorem claim2_counterexample :
    1 ∈ (((ECM.CreateComponentImplementation (fun t => decide (t = 10))
        ((ECM.fresh.CreateEntity).2.ClearNewlyCreatedEntities)
        1 10 "x").2).RequestRemoveEntity 1 false).modifiedComponents ∧
    1 ∈ (((ECM.CreateComponentImplementation (fun t => decide (t = 10))
        ((ECM.fresh.CreateEntity).2.ClearNewlyCreatedEntities)
        1 10 "x").2).RequestRemoveEntity 1 false).toRemoveEntities := by
  constructor <;> decide

theorem addModified_modDisjoint (s : ECM) (e : Nat) (h : modDisjoint s) :
    modDisjoint (s.AddModifiedComponent e) := by
  unfold ECM.AddModifiedComponent
  split
  · exact h
  · next hcond =>
    push_neg at hcond
    intro a ha
    rcases Finset.mem_insert.mp ha with ha1 | ha2
    · subst ha1
      exact ⟨hcond.1, hcond.2.1⟩
    · exact h a ha2

/-- C2 amended: the insertion point `AddModifiedComponent` refuses entities
currently in `newlyCreated` or `toRemove`, so it and every component-change
operation routed through it (`SetChanged`, `RemoveComponent`,
`CreateComponentImplementation`) preserve the disjointness; but
`RequestRemoveEntity` does not remove an already-modified entity from
`modifiedComponents`, so requesting removal of such an entity breaks the
disjointness (witnessed by the counterexample). -/
theorem claim2_modified_disjoint :
    (∀ (s : ECM) (e : Nat), modDisjoint s → modDisjoint (s.AddModifiedComponent e)) ∧
    (∀ (s : ECM) (e t : Nat) (c : ComponentState),
      modDisjoint s → modDisjoint (s.SetChanged e t c)) ∧
    (∀ (s : ECM) (e t : Nat), modDisjoint s → modDisjoint (s.RemoveComponent e t).2) ∧
    (∀ (F : Nat → Bool) (s : ECM) (e t : Nat) (d : String),
      modDisjoint s → modDisjoint (ECM.CreateComponentImplementation F s e t d).2) := by
  refine ⟨addModified_modDisjoint, ?_, ?_, ?_⟩
  · intro s e t c h
    unfold ECM.SetChanged
    split
    · exact h
    · split
      · exact h
      · rcases c with _ | _ | _ <;> exact addModified_modDisjoint _ e h
  · intro s e t h
    unfold ECM.RemoveComponent
    split
    · exact h
    · exact addModified_modDisjoint _ e h
  · intro F s e t d h
    unfold ECM.CreateComponentImplementation
    split
    · exact h
    · split
      · exact h
      · dsimp only
        split <;> exact addModified_modDisjoint _ e h

/-- Witness for the amended C2: the preservation facts applied at a
concrete state satisfying the disjointness hypothesis. -/
theorem claim2_witness :
    modDisjoint ECM.fresh ∧
    modDisjoint (ECM.fresh.AddModifiedComponent 1) ∧
    modDisjoint (ECM.fresh.SetChanged 1 10 ComponentState.NoChange) ∧
    modDisjoint ((ECM.fresh.RemoveComponent 1 10).2) ∧
    modDisjoint ((ECM.CreateComponentImplementation (fun _ => true) ECM.fresh 1 10 "x").2) := by
  have hfresh : modDisjoint ECM.fresh := by
    intro e he
    simp [ECM.fresh] at he
  exact ⟨hfresh, claim2_modified_disjoint.1 ECM.fresh 1 hfresh,
    claim2_modified_disjoint.2.1 ECM.fresh 1 10 ComponentState.NoChange hfresh,
    claim2_modified_disjoint.2.2.1 ECM.fresh 1 10 hfresh,
    claim2_modified_disjoint.2.2.2 (fun _ => true) ECM.fresh 1 10 "x" hfresh⟩

/-- The state of the C3 counterexample: entities 1 and 2 with
`Descendants(1)` queried (caching `{1}`) before the edge `1 → 2` is added
by `SetParentEntity(2, 1)`. -/
def staleCacheState : ECM :=
  (((((ECM.fresh.CreateEntity).2.CreateEntity).2.Descendants 1).2
    ).SetParentEntity 2 1).2

/-- A two-entity state with the edge `1 → 2` and an empty descendant
cache. -/
def twoEntityEdgeState : ECM :=
  ((((ECM.fresh.CreateEntity).2.CreateEntity).2.SetParentEntity 2 1).2)

/-- C3 counterexample: create entities 1 and 2, query `Descendants(1)`
(caching `{1}`), then `SetParentEntity(2, 1)`.  `SetParentEntity` does not
invalidate the descendant cache, so a second `Descendants(1)` still returns
the stale `{1}` even though vertex 2 is now reachable from 1. -/
theorem claim3_counterexample :
    2 ∉ (staleCacheState.Descendants 1).1 ∧
    Relation.ReflTransGen staleCacheState.entities.childRel 1 2 ∧
    staleCacheState.HasEntity 1 = true :=
  ⟨by decide,
    Relation.ReflTransGen.single
      (show (1, 2) ∈ staleCacheState.entities.edges from by decide),
    by decide⟩

/-- C3 amended: on a cache miss for an existing entity, `Descendants(e)`
returns exactly the set of vertices reachable from `e` by breadth-first
traversal of the current entity graph including `e` itself; the cache is
invalidated by entity creation and by `ProcessRemoveEntityRequests`, but
`SetParentEntity` leaves it untouched, so between two `Descendants` calls a
structural edge change can leave a stale cached result (witnessed by the
counterexample). -/
theorem claim3_descendants_bfs :
    (∀ (s : ECM) (e v : Nat), e ∉ s.descendantCacheDom → s.HasEntity e = true →
      (v ∈ (s.Descendants e).1 ↔
        Relation.ReflTransGen s.entities.childRel e v)) ∧
    (∀ (s : ECM) (c p : Nat),
      ((s.SetParentEntity c p).2).descendantCacheDom = s.descendantCacheDom) ∧
    (∀ (s : ECM) (e : Nat),
      (s.CreateEntityImplementation e).descendantCacheDom = ∅) ∧
    (∀ s : ECM, (s.ProcessRemoveEntityRequests).descendantCacheDom = ∅) := by
  refine ⟨?_, ?_, ?_, ?_⟩
  · intro s e v hmiss hhas
    unfold ECM.Descendants
    rw [if_neg hmiss, if_neg (by simp [hhas])]
    exact s.entities.mem_reach_iff e v
  · intro s c p
    unfold ECM.SetParentEntity
    dsimp only
    split <;> rfl
  · intro s e
    rfl
  · intro s
    rfl

/-- Witness for the amended C3 at a concrete two-entity state with an
edge `1 → 2` and an empty cache. -/
theorem claim3_witness :
    1 ∉ twoEntityEdgeState.descendantCacheDom ∧
    twoEntityEdgeState.HasEntity 1 = true ∧
    (2 ∈ (twoEntityEdgeState.Descendants 1).1 ↔
      Relation.ReflTransGen twoEntityEdgeState.entities.childRel 1 2) :=
  ⟨by decide, by decide,
    claim3_descendants_bfs.1 _ 1 2 (by decide) (by decide)⟩

theorem lookup_append_singleton_self {β : Type} (l : List (Nat × β)) (k : Nat)
    (v : β) (h : l.lookup k = none) : (l ++ [(k, v)]).lookup k = some v := by
  induction l with
  | nil => simp [List.lookup]
  | cons p l ih =>
    rcases p with ⟨b, w⟩
    by_cases hkb : k = b
    · subst hkb
      simp [List.lookup] at h
    · simp only [List.lookup, beq_false_of_ne hkb] at h
      simp only [List.cons_append, List.lookup, beq_false_of_ne hkb]
      exact ih h

theorem lookup_map_keyfix {β : Type} (l : List (Nat × β)) (k : Nat)
    (F : Nat × β → Nat × β) (hF : ∀ p, (F p).1 = p.1) (a : Nat) :
    ((l.map (fun p => if p.1 = k then F p else p)).lookup a) =
      if a = k then (l.lookup a).map (fun v => (F (a, v)).2) else l.lookup a := by
  induction l with
  | nil => by_cases hak : a = k <;> simp [List.lookup, hak]
  | cons p l ih =>
    rcases p with ⟨c, w⟩
    by_cases hck : c = k
    · subst hck
      simp only [List.map_cons, if_pos rfl]
      by_cases hac : a = c
      · subst hac
        have h1 : (F (a, w)).1 = a := hF (a, w)
        simp [List.lookup, h1]
      · have h1 : (F (c, w)).1 = c := hF (c, w)
        simp only [List.lookup, h1, beq_false_of_ne hac, if_neg hac]
        rw [ih, if_neg hac]
    · simp only [List.map_cons, if_neg hck]
      by_cases hac : a = c
      · subst hac
        simp [List.lookup, if_neg hck]
      · simp only [List.lookup, beq_false_of_ne hac]
        exact ih

/-- The component message stored in a map-form state message under entity
`k` and component type `t`, when both keys are present. -/
def compLookup (m : SerializedStateMap) (k t : Nat) : Option SerializedComponent :=
  (m.entities.lookup k).bind (fun em => em.components.lookup t)

theorem lookup_getOrInsert_self (m : SerializedStateMap) (k : Nat) :
    ((m.getOrInsert k).entities.lookup k) =
      some ((m.entities.lookup k).getD ⟨k, false, []⟩) := by
  unfold SerializedStateMap.getOrInsert
  split
  · next h =>
    obtain ⟨em, hem⟩ := Option.isSome_iff_exists.mp h
    rw [hem]
    rfl
  · next h =>
    rw [Option.not_isSome_iff_eq_none] at h
    rw [h, lookup_append_singleton_self _ _ _ h]
    rfl

theorem lookup_modifyEnt_self (m : SerializedStateMap) (k : Nat)
    (f : SerializedEntityMap → SerializedEntityMap) :
    ((m.modifyEnt k f).entities.lookup k) = (m.entities.lookup k).map f := by
  unfold SerializedStateMap.modifyEnt
  rw [lookup_map_keyfix _ k (fun p => (p.1, f p.2)) (fun p => rfl) k, if_pos rfl]

theorem compLookup_getOrInsert (m : SerializedStateMap) (k t : Nat) :
    compLookup (m.getOrInsert k) k t = compLookup m k t := by
  unfold compLookup
  rw [lookup_getOrInsert_self]
  cases hm : m.entities.lookup k
  · rfl
  · rfl

theorem foldl_obs_pres {α β : Type} (O : SerializedStateMap → β)
    (step : SerializedStateMap → α → SerializedStateMap) (l : List α)
    (h : ∀ m x, x ∈ l → O (step m x) = O m) (m : SerializedStateMap) :
    O (l.foldl step m) = O m := by
  induction l generalizing m with
  | nil => rfl
  | cons x xs ih =>
    rw [List.foldl_cons,
      ih (fun m' x' hx' => h m' x' (List.mem_cons_of_mem x hx')) (step m x),
      h m x (List.mem_cons_self x xs)]

theorem addCompToMsgMap_compLookup_ne (s : ECM) (e : Nat) (full : Bool)
    (m : SerializedStateMap) (x t : Nat) (hx : x ≠ t) :
    compLookup (s.addCompToMsgMap e full m x) e t = compLookup m e t := by
  unfold ECM.addCompToMsgMap
  split
  · rfl
  · split
    · rfl
    · split
      · rfl
      · next b heq =>
        unfold compLookup
        rw [lookup_modifyEnt_self, lookup_getOrInsert_self]
        cases hm : m.entities.lookup e with
        | none =>
          simp [Option.getD, Option.map, Option.bind, List.lookup,
            beq_false_of_ne (Ne.symm hx)]
        | some em =>
          simp only [Option.getD_some, Option.map_some', Option.some_bind]
          split
          · dsimp only
            rw [lookup_map_keyfix em.components x
              (fun p => (p.1, { p.2 with component := b })) (fun p => rfl) t,
              if_neg (Ne.symm hx)]
          · rw [lookup_append_singleton_ne _ _ _ _ (Ne.symm hx)]

theorem foldl_compLookup_pres {α : Type}
    (step : SerializedStateMap → α → SerializedStateMap) (l : List α)
    (e t : Nat)
    (h : ∀ m x, x ∈ l → compLookup (step m x) e t = compLookup m e t)
    (m : SerializedStateMap) :
    compLookup (l.foldl step m) e t = compLookup m e t :=
  foldl_obs_pres (fun m' => compLookup m' e t) step l h m

theorem setRemovedMsgsMap_compLookup_notRemoved (s : ECM) (k : Nat)
    (msg : SerializedStateMap) (types : Finset Nat) (t : Nat)
    (h : t ∉ s.removedComponents k) :
    compLookup (s.SetRemovedComponentsMsgsMap k msg types) k t =
      compLookup msg k t := by
  unfold ECM.SetRemovedComponentsMsgsMap
  split
  · rfl
  · rw [foldl_compLookup_pres]
    · exact compLookup_getOrInsert _ _ _
    · intro m x hxmem
      have hxt : x ≠ t := by
        intro hEq
        exact h (hEq ▸ (mem_ascList _ _).mp hxmem)
      dsimp only
      split
      · rfl
      · unfold compLookup
        rw [lookup_modifyEnt_self]
        cases hm : m.entities.lookup k with
        | none => rfl
        | some em =>
          simp only [Option.map_some', Option.some_bind]
          split
          · dsimp only
            rw [lookup_map_keyfix em.components x
              (fun p => (p.1, (⟨x, " ", true⟩ : SerializedComponent))) (fun p => rfl) t,
              if_neg (Ne.symm hxt)]
          · rw [lookup_append_singleton_ne _ _ _ _ (Ne.symm hxt)]

theorem addCompToMsgMap_compLookup_self (s : ECM) (e t : Nat)
    (m : SerializedStateMap) (b : String)
    (hPoss : t ∈ s.entityComponentsVal e)
    (hVal : s.entityCompStorage.validComponent e t = some b)
    (hnone : compLookup m e t = none) :
    compLookup (s.addCompToMsgMap e false m t) e t =
      (if e ∈ s.oneTimeChangedComponents t ∨ e ∈ s.periodicChangedComponents t
        then some ⟨t, b, false⟩ else none) := by
  unfold ECM.addCompToMsgMap
  rw [if_neg (not_not_intro hPoss)]
  by_cases hch : e ∈ s.oneTimeChangedComponents t ∨ e ∈ s.periodicChangedComponents t
  · rw [if_neg (fun hc => hc.2 hch), if_pos hch, hVal]
    dsimp only
    unfold compLookup
    rw [lookup_modifyEnt_self, lookup_getOrInsert_self]
    cases hm : m.entities.lookup e with
    | none =>
      simp [Option.getD, Option.map, Option.bind, List.lookup]
    | some em =>
      have hcnone : em.components.lookup t = none := by
        unfold compLookup at hnone
        rw [hm] at hnone
        exact hnone
      simp only [Option.getD_some, Option.map_some', Option.some_bind]
      rw [hcnone, if_neg (by simp)]
      dsimp only
      exact lookup_append_singleton_self em.components t _ hcnone
  · rw [if_pos ⟨Bool.false_ne_true, hch⟩, if_neg hch]
    exact hnone

/-- C4: in the map-form `AddEntityToMessage` called with `full = false` on
an initially empty message and no types filter, a component type the entity
possesses (and that is not also pending in the removed-components ledger,
whose entries are C5's removal messages rather than serializations) is
serialized into the message — as an entry carrying the stored payload with
`remove = false` — if and only if the (entity, type) pair is present in the
one-time-changed or periodic-changed set; otherwise it is skipped.  The
payload hypothesis is the index/storage agreement invariant of spec
section 3. -/
theorem claim4_not_full_serializes_changed_only :
    ∀ (s : ECM) (e t : Nat) (b : String),
      e ∈ s.entityComponentsDom →
      t ∈ s.entityComponentsVal e →
      t ∉ s.removedComponents e →
      s.entityCompStorage.validComponent e t = some b →
      compLookup (s.AddEntityToMessageMap ⟨[]⟩ e ∅ false) e t =
        (if e ∈ s.oneTimeChangedComponents t ∨ e ∈ s.periodicChangedComponents t
          then some ⟨t, b, false⟩ else none) := by
  intro s e t b hDom hPoss hRem hVal
  unfold ECM.AddEntityToMessageMap
  rw [if_neg (not_not_intro hDom)]
  dsimp only
  rw [if_pos (rfl : (∅ : Finset Nat) = ∅)]
  rw [setRemovedMsgsMap_compLookup_notRemoved s e _ ∅ t hRem]
  obtain ⟨l1, l2, hsplit⟩ := List.append_of_mem ((mem_ascList _ t).mpr hPoss)
  have hnodup := ascList_nodup (s.entityComponentsVal e)
  rw [hsplit] at hnodup
  have htl12 : t ∉ l1 ++ l2 := (List.nodup_cons.mp (List.nodup_middle.mp hnodup)).1
  have htl1 : t ∉ l1 := fun hc => htl12 (List.mem_append_left _ hc)
  have htl2 : t ∉ l2 := fun hc => htl12 (List.mem_append_right _ hc)
  rw [hsplit, List.foldl_append, List.foldl_cons]
  rw [foldl_compLookup_pres _ l2 e t
    (fun m x hx => addCompToMsgMap_compLookup_ne s e false m x t
      (fun hEq => htl2 (hEq ▸ hx)))]
  rw [addCompToMsgMap_compLookup_self s e t _ b hPoss hVal]
  rw [foldl_compLookup_pres _ l1 e t
    (fun m x hx => addCompToMsgMap_compLookup_ne s e false m x t
      (fun hEq => htl1 (hEq ▸ hx)))]
  split
  · unfold compLookup
    rw [lookup_modifyEnt_self, lookup_getOrInsert_self]
    simp [Option.getD, Option.map, Option.bind, List.lookup]
  · rfl

/-- A state for the C4 witness: entity 1 with components of types 10
(payload "x", then flagged `NoChange`) and 11 (payload "y", creation left
its one-time change in place). -/
def c4State : ECM :=
  ((ECM.CreateComponentImplementation (fun t => decide (t = 10 ∨ t = 11))
      ((ECM.CreateComponentImplementation (fun t => decide (t = 10 ∨ t = 11))
        (ECM.fresh.CreateEntity).2 1 10 "x").2)
      1 11 "y").2).SetChanged 1 10 ComponentState.NoChange

/-- Witness for C4 at a concrete state: entity 1 possesses types 10 and 11,
type 10 flagged `NoChange` and type 11 still carrying its creation-time
one-time change; with `full = false` only type 11 is serialized. -/
theorem claim4_witness :
    1 ∈ c4State.entityComponentsDom ∧
    10 ∈ c4State.entityComponentsVal 1 ∧ 11 ∈ c4State.entityComponentsVal 1 ∧
    10 ∉ c4State.removedComponents 1 ∧ 11 ∉ c4State.removedComponents 1 ∧
    compLookup (c4State.AddEntityToMessageMap ⟨[]⟩ 1 ∅ false) 1 10 =
      (if 1 ∈ c4State.oneTimeChangedComponents 10 ∨
          1 ∈ c4State.periodicChangedComponents 10
        then some ⟨10, "x", false⟩ else none) ∧
    compLookup (c4State.AddEntityToMessageMap ⟨[]⟩ 1 ∅ false) 1 11 =
      (if 1 ∈ c4State.oneTimeChangedComponents 11 ∨
          1 ∈ c4State.periodicChangedComponents 11
        then some ⟨11, "y", false⟩ else none) :=
  ⟨by decide, by decide, by decide, by decide, by decide,
    claim4_not_full_serializes_changed_only c4State 1 10 "x"
      (by decide) (by decide) (by decide) (by decide),
    claim4_not_full_serializes_changed_only c4State 1 11 "y"
      (by decide) (by decide) (by decide) (by decide)⟩

/-- The state after `n` calls of `CreateEntity` on a fresh manager. -/
def createNState : Nat → ECM
  | 0 => ECM.fresh
  | n + 1 => ((createNState n).CreateEntity).2

/-- The id returned by `CreateEntity` call number `n + 1` on a fresh
manager. -/
def createNRet (n : Nat) : Nat := ((createNState n).CreateEntity).1

theorem createEntity_fst (s : ECM) :
    (s.CreateEntity).1 = (s.entityCount + 1) % 2 ^ 64 := by
  unfold ECM.CreateEntity
  dsimp only
  split <;> rfl

theorem createEntity_count (s : ECM) :
    ((s.CreateEntity).2).entityCount = (s.entityCount + 1) % 2 ^ 64 := by
  unfold ECM.CreateEntity
  dsimp only
  split <;> rfl

theorem createEntity_verts (s : ECM) :
    ((s.CreateEntity).2).entities.verts =
      (if (s.entityCount + 1) % 2 ^ 64 = maxEntity then s.entities.verts
        else insert ((s.entityCount + 1) % 2 ^ 64) s.entities.verts) := by
  unfold ECM.CreateEntity ECM.CreateEntityImplementation EntityGraph.addVertex
  dsimp only
  split <;> rfl

theorem createNState_count (n : Nat) :
    (createNState n).entityCount = n % 2 ^ 64 := by
  induction n with
  | zero => rfl
  | succ n ih =>
    show ((createNState n).CreateEntity).2.entityCount = (n + 1) % 2 ^ 64
    rw [createEntity_count, ih]
    omega

theorem createNRet_eq (n : Nat) : createNRet n = (n + 1) % 2 ^ 64 := by
  unfold createNRet
  rw [createEntity_fst, createNState_count]
  omega

theorem createNState_verts (n : Nat) (hn : n ≤ 2 ^ 64 - 1) :
    (createNState n).entities.verts = Finset.Icc 1 (min n (2 ^ 64 - 2)) := by
  induction n with
  | zero =>
    show (∅ : Finset Nat) = Finset.Icc 1 (min 0 (2 ^ 64 - 2))
    rw [Nat.min_eq_left (Nat.zero_le _), Finset.Icc_eq_empty (by omega)]
  | succ n ih =>
    have hn' : n ≤ 2 ^ 64 - 1 := Nat.le_of_succ_le hn
    show ((createNState n).CreateEntity).2.entities.verts = _
    rw [createEntity_verts, createNState_count, ih hn']
    have hmod : (n % 2 ^ 64 + 1) % 2 ^ 64 = n + 1 := by omega
    rw [hmod]
    by_cases hmax : n + 1 = maxEntity
    · rw [if_pos hmax]
      unfold maxEntity at hmax
      rw [Nat.min_eq_right (by omega), Nat.min_eq_right (by omega)]
    · rw [if_neg hmax]
      unfold maxEntity at hmax
      have hlt : n + 1 ≤ 2 ^ 64 - 2 := by omega
      rw [Nat.min_eq_left (by omega), Nat.min_eq_left hlt]
      ext a
      simp only [Finset.mem_insert, Finset.mem_Icc]
      omega

/-- C7 counterexample: calls are numbered from 1; `createNRet (n - 1)` is
the id returned by call `n`.  Call `2 ^ 64 - 1` returns the sentinel
maximum, but the very next call wraps the counter and returns `0` — not
greater than every previously returned id — and the call after that
returns `1`, reusing the id handed out by the first call; the wrapped call
also creates an entity (`HasEntity 0` below), instead of refusing. -/
theorem claim7_counterexample :
    createNRet (2 ^ 64 - 2) = 2 ^ 64 - 1 ∧
    createNRet (2 ^ 64 - 1) = 0 ∧
    createNRet (2 ^ 64) = 1 ∧
    createNRet 0 = 1 ∧
    ¬ createNRet (2 ^ 64 - 2) < createNRet (2 ^ 64 - 1) ∧
    (createNState (2 ^ 64)).HasEntity 0 = true := by
  refine ⟨?_, ?_, ?_, ?_, ?_, ?_⟩
  · rw [createNRet_eq]; omega
  · rw [createNRet_eq]; omega
  · rw [createNRet_eq]; omega
  · rw [createNRet_eq]; omega
  · rw [createNRet_eq, createNRet_eq]; omega
  · have hstep : ∀ n, createNState (n + 1) = ((createNState n).CreateEntity).2 :=
      fun n => rfl
    have h64 : (2 : Nat) ^ 64 = (2 ^ 64 - 1) + 1 := by omega
    rw [h64, hstep]
    unfold ECM.HasEntity
    rw [createEntity_verts, createNState_count]
    have hc : ((2 ^ 64 - 1) % 2 ^ 64 + 1) % 2 ^ 64 = 0 := by omega
    rw [hc, if_neg (by unfold maxEntity; omega)]
    simp

/-- C7 amended: ids returned by successive `CreateEntity` calls on one
fresh manager are strictly increasing — hence never reused — as long as the
counter has not yet passed the sentinel maximum (calls numbered up to
`2 ^ 64 - 1`); the call that reaches the sentinel returns it, warns, and
does not create an entity (`EntityCount` unchanged and the returned id not
an entity).  Beyond that point the counter wraps and ids restart from `0`
(see the counterexample). -/
theorem claim7_monotone_until_wrap :
    (∀ m n : Nat, m < n → n < 2 ^ 64 - 1 → createNRet m < createNRet n) ∧
    createNRet (2 ^ 64 - 2) = maxEntity ∧
    (createNState (2 ^ 64 - 1)).EntityCount = (createNState (2 ^ 64 - 2)).EntityCount ∧
    (createNState (2 ^ 64 - 1)).HasEntity maxEntity = false := by
  refine ⟨?_, ?_, ?_, ?_⟩
  · intro m n hmn hn
    rw [createNRet_eq, createNRet_eq]
    omega
  · rw [createNRet_eq]
    unfold maxEntity
    omega
  · unfold ECM.EntityCount
    rw [createNState_verts _ (by omega), createNState_verts _ (by omega)]
    have h1 : min (2 ^ 64 - 1) (2 ^ 64 - 2) = 2 ^ 64 - 2 := by omega
    have h2 : min (2 ^ 64 - 2) (2 ^ 64 - 2) = 2 ^ 64 - 2 := by omega
    rw [h1, h2]
  · unfold ECM.HasEntity
    rw [createNState_verts _ (by omega)]
    simp only [decide_eq_false_iff_not, Finset.mem_Icc]
    unfold maxEntity
    omega

/-- Witness for the amended C7 at the first two calls. -/
theorem claim7_witness : createNRet 0 < createNRet 1 :=
  claim7_monotone_until_wrap.1 0 1 (by omega) (by norm_num)

theorem addModified_fields (s : ECM) (e : Nat) :
    (s.AddModifiedComponent e).entities = s.entities ∧
    (s.AddModifiedComponent e).entityCompStorage = s.entityCompStorage ∧
    (s.AddModifiedComponent e).entityComponentsDom = s.entityComponentsDom ∧
    (s.AddModifiedComponent e).entityComponentsVal = s.entityComponentsVal ∧
    (s.AddModifiedComponent e).createdCompTypes = s.createdCompTypes := by
  unfold ECM.AddModifiedComponent
  split <;> exact ⟨rfl, rfl, rfl, rfl, rfl⟩

theorem validComponent_of_absent (st : Storage) (e t : Nat)
    (h : st.slots e t = Slot.absent) : st.validComponent e t = none := by
  unfold Storage.validComponent
  rw [h]

theorem validComponent_of_present (st : Storage) (e t : Nat) (b : String)
    (h : st.slots e t = Slot.present b) : st.validComponent e t = some b := by
  unfold Storage.validComponent
  rw [h]

theorem entityHasComponentType_false_of_not_mem (s : ECM) (e t : Nat)
    (h : t ∉ s.entityComponentsVal e) : s.EntityHasComponentType e t = false := by
  unfold ECM.EntityHasComponentType
  simp [h]

theorem removeComponent_noop (s : ECM) (e t : Nat)
    (h : s.EntityHasComponentType e t = false) :
    s.RemoveComponent e t = (false, s) := by
  unfold ECM.RemoveComponent
  rw [if_pos (by simp [h])]

theorem setStateComponentFlat_skip_unknown (F : Nat → Bool) (s : ECM) (e : Nat)
    (cm : SerializedComponent) (hb : cm.component ≠ "") (hF : F cm.type = false) :
    s.setStateComponentFlat F e cm = s := by
  unfold ECM.setStateComponentFlat
  rw [if_neg hb, if_pos (by simp [hF])]

theorem setStateComponentFlat_removal_noop (F : Nat → Bool) (s : ECM)
    (e t : Nat) (hguard : t ∉ s.entityComponentsVal e) :
    s.setStateComponentFlat F e ⟨t, " ", true⟩ = s := by
  unfold ECM.setStateComponentFlat
  rw [if_neg (by decide : (" " : String) ≠ "")]
  by_cases hF : F t = true
  · rw [if_neg (by simp [hF])]
    rw [removeComponent_noop s e t
      (entityHasComponentType_false_of_not_mem s e t hguard)]
    rfl
  · rw [if_pos (by simpa using hF)]

theorem setStateComponentFlat_create (F : Nat → Bool) (s : ECM) (e t : Nat)
    (b : String) (hb : b ≠ "") (hF : F t = true)
    (hguard : t ∉ s.entityComponentsVal e)
    (hslot : s.entityCompStorage.slots e t = Slot.absent) :
    s.setStateComponentFlat F e ⟨t, b, false⟩ =
      (s.CreateComponentImplementation F e t b).2 := by
  unfold ECM.setStateComponentFlat
  rw [if_neg hb, if_neg (by simp [hF])]
  rw [removeComponent_noop s e t
    (entityHasComponentType_false_of_not_mem s e t hguard)]
  rw [if_neg (by simp)]
  rw [validComponent_of_absent _ _ _ hslot]

theorem createComp_effect (F : Nat → Bool) (s : ECM) (e t : Nat) (d : String)
    (hHas : s.HasEntity e = true) (hF : F t = true)
    (hent : e ∈ s.entityCompStorage.ents)
    (hslot : s.entityCompStorage.slots e t = Slot.absent) :
    ((s.CreateComponentImplementation F e t d).2).entities = s.entities ∧
    ((s.CreateComponentImplementation F e t d).2).entityCompStorage.ents =
      s.entityCompStorage.ents ∧
    ((s.CreateComponentImplementation F e t d).2).entityCompStorage.slots =
      Function.update s.entityCompStorage.slots e
        (Function.update (s.entityCompStorage.slots e) t (Slot.present d)) ∧
    ((s.CreateComponentImplementation F e t d).2).entityComponentsDom =
      insert e s.entityComponentsDom ∧
    ((s.CreateComponentImplementation F e t d).2).entityComponentsVal =
      Function.update s.entityComponentsVal e
        (insert t (s.entityComponentsVal e)) := by
  obtain ⟨hg, hst, hdom, hval, _⟩ := addModified_fields s e
  unfold ECM.CreateComponentImplementation
  rw [if_neg (not_not_intro hHas), if_neg (fun hc => hc.2 hF)]
  dsimp only
  unfold Storage.addComponent
  rw [hst]
  rw [if_neg (not_not_intro hent), hslot]
  dsimp only
  unfold Storage.setSlot
  exact ⟨hg, rfl, rfl, by rw [hdom], by rw [hval]⟩

theorem ascList_toFinset (x : Finset Nat) : (ascList x).toFinset = x := by
  ext a
  rw [List.mem_toFinset, mem_ascList]

/-- Application of the removal entries `⟨t, " ", true⟩` for the types in
`l` to entity `e` (the removed-component part of a flat-form entity
message, as consumed by `setStateEntityFlat`). -/
def applyRemList (F : Nat → Bool) (e : Nat) (l : List Nat) (s : ECM) : ECM :=
  (l.map (fun t => (⟨t, " ", true⟩ : SerializedComponent))).foldl
    (fun sc cm => sc.setStateComponentFlat F e cm) s

theorem applyRemovals_identity (F : Nat → Bool) (e : Nat) (l : List Nat)
    (s : ECM) (hguard : ∀ t ∈ l, t ∉ s.entityComponentsVal e) :
    applyRemList F e l s = s := by
  induction l with
  | nil => rfl
  | cons t ts ih =>
    unfold applyRemList
    rw [List.map_cons, List.foldl_cons,
      setStateComponentFlat_removal_noop F s e t (hguard t (List.mem_cons_self t ts))]
    exact ih (fun t' ht' => hguard t' (List.mem_cons_of_mem t ht'))

theorem createEntityImpl_fields (s : ECM) (e : Nat)
    (hent : e ∉ s.entityCompStorage.ents) :
    (s.CreateEntityImplementation e).entities.verts = insert e s.entities.verts ∧
    (s.CreateEntityImplementation e).entityCompStorage.ents =
      insert e s.entityCompStorage.ents ∧
    (s.CreateEntityImplementation e).entityCompStorage.slots =
      s.entityCompStorage.slots ∧
    (s.CreateEntityImplementation e).entityComponentsDom = s.entityComponentsDom ∧
    (s.CreateEntityImplementation e).entityComponentsVal = s.entityComponentsVal := by
  unfold ECM.CreateEntityImplementation EntityGraph.addVertex Storage.addEntity
  dsimp only
  rw [if_neg hent]
  exact ⟨rfl, rfl, rfl, rfl, rfl⟩

/-- Application of a list of component messages `⟨t, p t, false⟩` for the
types in `l` to entity `e` (the serialized part of a flat-form entity
message, as consumed by `setStateEntityFlat`). -/
def applyCompList (F : Nat → Bool) (e : Nat) (p : Nat → String) (l : List Nat)
    (s : ECM) : ECM :=
  (l.map (fun t => (⟨t, p t, false⟩ : SerializedComponent))).foldl
    (fun sc cm => sc.setStateComponentFlat F e cm) s

/-- Effect of applying a list of non-empty, factory-known, `remove = false`
component messages with pairwise distinct types to an entity that is
registered in graph and storage and whose affected slots are all empty. -/
theorem applyComps_effect (F : Nat → Bool) (e : Nat) (p : Nat → String) :
    ∀ (l : List Nat) (s : ECM), l.Nodup →
    (∀ t ∈ l, p t ≠ "" ∧ F t = true) →
    s.HasEntity e = true →
    e ∈ s.entityCompStorage.ents →
    (∀ t ∈ l, s.entityCompStorage.slots e t = Slot.absent) →
    (∀ t ∈ l, t ∉ s.entityComponentsVal e) →
    (applyCompList F e p l s).entities = s.entities ∧
    (applyCompList F e p l s).entityCompStorage.ents = s.entityCompStorage.ents ∧
    (applyCompList F e p l s).entityComponentsVal e =
      s.entityComponentsVal e ∪ l.toFinset ∧
    (∀ t ∈ l, (applyCompList F e p l s).entityCompStorage.slots e t =
      Slot.present (p t)) ∧
    (∀ t, t ∉ l → (applyCompList F e p l s).entityCompStorage.slots e t =
      s.entityCompStorage.slots e t) ∧
    (∀ e', e' ≠ e →
      (applyCompList F e p l s).entityCompStorage.slots e' =
        s.entityCompStorage.slots e' ∧
      (applyCompList F e p l s).entityComponentsVal e' =
        s.entityComponentsVal e' ∧
      ((e' ∈ (applyCompList F e p l s).entityComponentsDom) ↔
        e' ∈ s.entityComponentsDom)) := by
  intro l
  induction l with
  | nil =>
    intro s _ _ _ _ _ _
    exact ⟨rfl, rfl, by simp [applyCompList], fun t ht => absurd ht (List.not_mem_nil t),
      fun t _ => rfl, fun e' _ => ⟨rfl, rfl, Iff.rfl⟩⟩
  | cons t ts ih =>
    intro s hnd hp hv hents hslots hval
    have hstep : applyCompList F e p (t :: ts) s =
        applyCompList F e p ts ((s.CreateComponentImplementation F e t (p t)).2) := by
      unfold applyCompList
      rw [List.map_cons, List.foldl_cons,
        setStateComponentFlat_create F s e t (p t)
          (hp t (List.mem_cons_self t ts)).1 (hp t (List.mem_cons_self t ts)).2
          (hval t (List.mem_cons_self t ts)) (hslots t (List.mem_cons_self t ts))]
    obtain ⟨hg1, hents1, hslots1, hdom1, hval1⟩ :=
      createComp_effect F s e t (p t) hv (hp t (List.mem_cons_self t ts)).2
        hents (hslots t (List.mem_cons_self t ts))
    have htts : t ∉ ts := (List.nodup_cons.mp hnd).1
    have hv1 : ((s.CreateComponentImplementation F e t (p t)).2).HasEntity e = true := by
      unfold ECM.HasEntity at hv ⊢
      rw [hg1]
      exact hv
    have hents1' : e ∈ ((s.CreateComponentImplementation F e t (p t)).2).entityCompStorage.ents := by
      rw [hents1]
      exact hents
    have hslots1' : ∀ x ∈ ts,
        ((s.CreateComponentImplementation F e t (p t)).2).entityCompStorage.slots e x =
          Slot.absent := by
      intro x hx
      have hxt : x ≠ t := by
        intro hc
        subst hc
        exact htts hx
      rw [hslots1, Function.update_same, Function.update_noteq hxt]
      exact hslots x (List.mem_cons_of_mem t hx)
    have hval1' : ∀ x ∈ ts,
        x ∉ ((s.CreateComponentImplementation F e t (p t)).2).entityComponentsVal e := by
      intro x hx hc
      rw [hval1, Function.update_same] at hc
      rcases Finset.mem_insert.mp hc with hc1 | hc2
      · exact htts (hc1 ▸ hx)
      · exact hval x (List.mem_cons_of_mem t hx) hc2
    obtain ⟨ihg, ihents, ihval, ihslotsIn, ihslotsOut, ihframe⟩ :=
      ih ((s.CreateComponentImplementation F e t (p t)).2) (List.nodup_cons.mp hnd).2
        (fun x hx => hp x (List.mem_cons_of_mem t hx)) hv1 hents1' hslots1' hval1'
    rw [hstep]
    refine ⟨ihg.trans hg1, ihents.trans hents1, ?_, ?_, ?_, ?_⟩
    · rw [ihval, hval1, Function.update_same]
      ext a
      simp only [Finset.mem_union, Finset.mem_insert, List.toFinset_cons,
        List.mem_toFinset]
      tauto
    · intro x hx
      rcases List.mem_cons.mp hx with hx1 | hx2
      · subst hx1
        rw [ihslotsOut x htts, hslots1, Function.update_same, Function.update_same]
      · rw [ihslotsIn x hx2]
    · intro x hxnot
      have hxt : x ≠ t := fun hc => hxnot (hc ▸ List.mem_cons_self t ts)
      have hxts : x ∉ ts := fun hc => hxnot (List.mem_cons_of_mem t hc)
      rw [ihslotsOut x hxts, hslots1, Function.update_same,
        Function.update_noteq hxt]
    · intro e' he'
      obtain ⟨ihf1, ihf2, ihf3⟩ := ihframe e' he'
      refine ⟨?_, ?_, ?_⟩
      · rw [ihf1, hslots1, Function.update_noteq he']
      · rw [ihf2, hval1, Function.update_noteq he']
      · rw [ihf3, hdom1]
        simp [Finset.mem_insert, he']

/-- The flat-form entity message the serializer emits for entity `e` of
state `s` when `e` is indexed, not marked for removal, and every indexed
component is present in storage: the serialized components in ascending
type order followed by the removed-component entries. -/
def entMsgOf (s : ECM) (e : Nat) : SerializedEntity :=
  ⟨e, false,
    (ascList (s.entityComponentsVal e)).map
      (fun t => ⟨t, (s.entityCompStorage.validComponent e t).getD "", false⟩) ++
    (ascList (s.removedComponents e)).map
      (fun t => ⟨t, " ", true⟩)⟩

theorem setStateEntityFlat_effect (F : Nat → Bool) (s σ : ECM) (e : Nat)
    (hU1 : e ∉ σ.entities.verts) (hU2 : e ∉ σ.entityCompStorage.ents)
    (hU3 : ∀ t, σ.entityCompStorage.slots e t = Slot.absent)
    (hU4 : σ.entityComponentsVal e = ∅)
    (hPay : ∀ t ∈ s.entityComponentsVal e, ∃ b,
      s.entityCompStorage.validComponent e t = some b ∧ b ≠ "" ∧ F t = true)
    (hRem : ∀ t ∈ s.removedComponents e, t ∉ s.entityComponentsVal e) :
    (σ.setStateEntityFlat F (entMsgOf s e)).entities.verts =
      insert e σ.entities.verts ∧
    (σ.setStateEntityFlat F (entMsgOf s e)).entityCompStorage.ents =
      insert e σ.entityCompStorage.ents ∧
    (∀ t, (σ.setStateEntityFlat F (entMsgOf s e)).entityCompStorage.validComponent e t =
      (if t ∈ s.entityComponentsVal e
        then s.entityCompStorage.validComponent e t else none)) ∧
    (σ.setStateEntityFlat F (entMsgOf s e)).entityComponentsVal e =
      s.entityComponentsVal e ∧
    (∀ e', e' ≠ e →
      (σ.setStateEntityFlat F (entMsgOf s e)).entityCompStorage.slots e' =
        σ.entityCompStorage.slots e' ∧
      (σ.setStateEntityFlat F (entMsgOf s e)).entityComponentsVal e' =
        σ.entityComponentsVal e') := by
  obtain ⟨hcg, hcents, hcslots, hcdom, hcval⟩ := createEntityImpl_fields σ e hU2
  have hrun : σ.setStateEntityFlat F (entMsgOf s e) =
      applyRemList F e (ascList (s.removedComponents e))
        (applyCompList F e (fun t => (s.entityCompStorage.validComponent e t).getD "")
          (ascList (s.entityComponentsVal e)) (σ.CreateEntityImplementation e)) := by
    unfold ECM.setStateEntityFlat entMsgOf
    dsimp only
    rw [if_neg Bool.false_ne_true,
      if_pos (by simp [ECM.HasEntity, hU1]),
      List.foldl_append]
    rfl
  have hp : ∀ t ∈ ascList (s.entityComponentsVal e),
      (fun t => (s.entityCompStorage.validComponent e t).getD "") t ≠ "" ∧ F t = true := by
    intro t ht
    obtain ⟨b, hb, hbne, hFt⟩ := hPay t ((mem_ascList _ _).mp ht)
    dsimp only
    rw [hb]
    exact ⟨hbne, hFt⟩
  have hv1 : (σ.CreateEntityImplementation e).HasEntity e = true := by
    unfold ECM.HasEntity
    rw [hcg]
    simp
  have hents1 : e ∈ (σ.CreateEntityImplementation e).entityCompStorage.ents := by
    rw [hcents]
    exact Finset.mem_insert_self e _
  have hslots1 : ∀ t ∈ ascList (s.entityComponentsVal e),
      (σ.CreateEntityImplementation e).entityCompStorage.slots e t = Slot.absent := by
    intro t _
    rw [hcslots]
    exact hU3 t
  have hval1 : ∀ t ∈ ascList (s.entityComponentsVal e),
      t ∉ (σ.CreateEntityImplementation e).entityComponentsVal e := by
    intro t _
    rw [hcval, hU4]
    exact Finset.not_mem_empty t
  obtain ⟨hag, haents, haval, haslotsIn, haslotsOut, haframe⟩ :=
    applyComps_effect F e (fun t => (s.entityCompStorage.validComponent e t).getD "")
      (ascList (s.entityComponentsVal e)) (σ.CreateEntityImplementation e)
      (ascList_nodup _) hp hv1 hents1 hslots1 hval1
  have hValFin : (applyCompList F e
      (fun t => (s.entityCompStorage.validComponent e t).getD "")
      (ascList (s.entityComponentsVal e))
      (σ.CreateEntityImplementation e)).entityComponentsVal e =
      s.entityComponentsVal e := by
    rw [haval, hcval, hU4, ascList_toFinset]
    exact Finset.empty_union _
  have hremid : applyRemList F e (ascList (s.removedComponents e))
      (applyCompList F e (fun t => (s.entityCompStorage.validComponent e t).getD "")
        (ascList (s.entityComponentsVal e)) (σ.CreateEntityImplementation e)) =
      applyCompList F e (fun t => (s.entityCompStorage.validComponent e t).getD "")
        (ascList (s.entityComponentsVal e)) (σ.CreateEntityImplementation e) := by
    apply applyRemovals_identity
    intro t ht
    rw [hValFin]
    exact hRem t ((mem_ascList _ _).mp ht)
  rw [hrun, hremid]
  refine ⟨?_, ?_, ?_, hValFin, ?_⟩
  · rw [hag, hcg]
  · rw [haents, hcents]
  · intro t
    by_cases ht : t ∈ s.entityComponentsVal e
    · rw [if_pos ht]
      obtain ⟨b, hb, _, _⟩ := hPay t ht
      have hin := haslotsIn t ((mem_ascList _ _).mpr ht)
      rw [validComponent_of_present _ _ _ _ hin, hb]
      rfl
    · rw [if_neg ht]
      have hout := haslotsOut t (fun hc => ht ((mem_ascList _ _).mp hc))
      have habs : (applyCompList F e
          (fun t => (s.entityCompStorage.validComponent e t).getD "")
          (ascList (s.entityComponentsVal e))
          (σ.CreateEntityImplementation e)).entityCompStorage.slots e t =
          Slot.absent := by
        rw [hout, hcslots]
        exact hU3 t
      rw [validComponent_of_absent _ _ _ habs]
  · intro e' he'
    obtain ⟨haf1, haf2, _⟩ := haframe e' he'
    exact ⟨by rw [haf1, hcslots], by rw [haf2, hcval]⟩

/-- Application of the entity messages `entMsgOf s e` for the entities in
`es` (the flat-form state message, as consumed by `SetStateFlat`). -/
def applyEntList (F : Nat → Bool) (s : ECM) (es : List Nat) (σ : ECM) : ECM :=
  es.foldl (fun σc e => σc.setStateEntityFlat F (entMsgOf s e)) σ

theorem applyEntities_effect (F : Nat → Bool) (s : ECM)
    (hPay : ∀ e ∈ s.entityComponentsDom, ∀ t ∈ s.entityComponentsVal e, ∃ b,
      s.entityCompStorage.validComponent e t = some b ∧ b ≠ "" ∧ F t = true)
    (hRem : ∀ e ∈ s.entityComponentsDom, ∀ t ∈ s.removedComponents e,
      t ∉ s.entityComponentsVal e) :
    ∀ (es : List Nat) (σ : ECM), es.Nodup →
    (∀ e ∈ es, e ∈ s.entityComponentsDom) →
    (∀ e ∈ es, e ∉ σ.entities.verts ∧ e ∉ σ.entityCompStorage.ents ∧
      (∀ t, σ.entityCompStorage.slots e t = Slot.absent) ∧
      σ.entityComponentsVal e = ∅) →
    (applyEntList F s es σ).entities.verts = σ.entities.verts ∪ es.toFinset ∧
    (∀ e ∈ es, ∀ t, (applyEntList F s es σ).entityCompStorage.validComponent e t =
      (if t ∈ s.entityComponentsVal e
        then s.entityCompStorage.validComponent e t else none)) ∧
    (∀ e', e' ∉ es →
      (applyEntList F s es σ).entityCompStorage.slots e' =
        σ.entityCompStorage.slots e' ∧
      (applyEntList F s es σ).entityComponentsVal e' =
        σ.entityComponentsVal e') := by
  intro es
  induction es with
  | nil =>
    intro σ _ _ _
    exact ⟨by simp [applyEntList], fun e he => absurd he (List.not_mem_nil e),
      fun e' _ => ⟨rfl, rfl⟩⟩
  | cons e rest ih =>
    intro σ hnd hdom hU
    obtain ⟨hU1, hU2, hU3, hU4⟩ := hU e (List.mem_cons_self e rest)
    obtain ⟨hv', hents', hvalid', hvale', hframe'⟩ :=
      setStateEntityFlat_effect F s σ e hU1 hU2 hU3 hU4
        (hPay e (hdom e (List.mem_cons_self e rest)))
        (hRem e (hdom e (List.mem_cons_self e rest)))
    have herest : e ∉ rest := (List.nodup_cons.mp hnd).1
    have hstep : applyEntList F s (e :: rest) σ =
        applyEntList F s rest (σ.setStateEntityFlat F (entMsgOf s e)) := rfl
    have hUrest : ∀ e'' ∈ rest,
        e'' ∉ (σ.setStateEntityFlat F (entMsgOf s e)).entities.verts ∧
        e'' ∉ (σ.setStateEntityFlat F (entMsgOf s e)).entityCompStorage.ents ∧
        (∀ t, (σ.setStateEntityFlat F (entMsgOf s e)).entityCompStorage.slots e'' t =
          Slot.absent) ∧
        (σ.setStateEntityFlat F (entMsgOf s e)).entityComponentsVal e'' = ∅ := by
      intro e'' he''
      have hne : e'' ≠ e := fun hc => herest (hc ▸ he'')
      obtain ⟨hf1, hf2⟩ := hframe' e'' hne
      obtain ⟨hu1, hu2, hu3, hu4⟩ := hU e'' (List.mem_cons_of_mem e he'')
      refine ⟨?_, ?_, ?_, ?_⟩
      · rw [hv']
        simp only [Finset.mem_insert]
        rintro (hc | hc)
        · exact hne hc
        · exact hu1 hc
      · rw [hents']
        simp only [Finset.mem_insert]
        rintro (hc | hc)
        · exact hne hc
        · exact hu2 hc
      · intro t
        rw [hf1]
        exact hu3 t
      · rw [hf2]
        exact hu4
    obtain ⟨ihv, ihvalid, ihframe⟩ :=
      ih (σ.setStateEntityFlat F (entMsgOf s e)) (List.nodup_cons.mp hnd).2
        (fun e'' he'' => hdom e'' (List.mem_cons_of_mem e he'')) hUrest
    rw [hstep]
    refine ⟨?_, ?_, ?_⟩
    · rw [ihv, hv']
      ext a
      simp only [Finset.mem_union, Finset.mem_insert, List.toFinset_cons,
        List.mem_toFinset]
      tauto
    · intro e'' he'' t
      rcases List.mem_cons.mp he'' with he1 | he2
      · obtain ⟨ihf1, _⟩ := ihframe e herest
        rw [he1]
        unfold Storage.validComponent
        rw [congrFun ihf1 t]
        have hv2 := hvalid' t
        unfold Storage.validComponent at hv2
        exact hv2
      · exact ihvalid e'' he2 t
    · intro e' he'
      have hne : e' ≠ e := fun hc => he' (hc ▸ List.mem_cons_self e rest)
      have herest' : e' ∉ rest := fun hc => he' (List.mem_cons_of_mem e hc)
      obtain ⟨ihf1, ihf2⟩ := ihframe e' herest'
      obtain ⟨hf1, hf2⟩ := hframe' e' hne
      exact ⟨by rw [ihf1, hf1], by rw [ihf2, hf2]⟩

theorem foldl_serialize_shape (s : ECM) (e : Nat) :
    ∀ (l : List Nat) (em : SerializedEntity),
    (∀ t ∈ l, t ∈ s.entityComponentsVal e ∧
      (s.entityCompStorage.validComponent e t).isSome) →
    (l.foldl (fun em t =>
        if t ∉ s.entityComponentsVal e then em
        else
          match s.entityCompStorage.validComponent e t with
          | none => em
          | some b => { em with components := em.components ++ [⟨t, b, false⟩] }) em) =
      { em with components :=
          em.components ++ l.map (fun t =>
            ⟨t, (s.entityCompStorage.validComponent e t).getD "", false⟩) } := by
  intro l
  induction l with
  | nil =>
    intro em _
    rw [List.map_nil, List.append_nil]
    rfl
  | cons t ts ih =>
    intro em h
    obtain ⟨hmem, hsome⟩ := h t (List.mem_cons_self t ts)
    obtain ⟨b, hb⟩ := Option.isSome_iff_exists.mp hsome
    rw [List.foldl_cons, if_neg (not_not_intro hmem), hb]
    dsimp only
    rw [ih _ (fun x hx => h x (List.mem_cons_of_mem t hx))]
    have hgd : (s.entityCompStorage.validComponent e t).getD "" = b := by
      rw [hb]
      rfl
    rw [List.map_cons, hgd]
    dsimp only
    rw [List.append_assoc]
    rfl

theorem addEntityToMessageFlat_shape (s : ECM) (m : SerializedState) (e : Nat)
    (hDom : e ∈ s.entityComponentsDom) (hTR : e ∉ s.toRemoveEntities)
    (hPay' : ∀ t ∈ s.entityComponentsVal e,
      (s.entityCompStorage.validComponent e t).isSome) :
    s.AddEntityToMessageFlat m e ∅ = ⟨m.entities ++ [entMsgOf s e]⟩ := by
  unfold ECM.AddEntityToMessageFlat
  rw [if_neg (not_not_intro hDom)]
  dsimp only
  rw [if_neg hTR, if_pos (rfl : (∅ : Finset Nat) = ∅)]
  rw [foldl_serialize_shape s e (ascList (s.entityComponentsVal e)) ⟨e, false, []⟩
    (fun t ht => ⟨(mem_ascList _ _).mp ht, hPay' t ((mem_ascList _ _).mp ht)⟩)]
  unfold ECM.SetRemovedComponentsMsgsFlat entMsgOf
  dsimp only
  rw [List.filter_eq_self.mpr
    (fun a _ => decide_eq_true (Or.inl (rfl : (∅ : Finset Nat) = ∅)))]
  simp

theorem foldl_addFlat_map (s : ECM) (hTR : s.toRemoveEntities = ∅)
    (hPay' : ∀ e ∈ s.entityComponentsDom, ∀ t ∈ s.entityComponentsVal e,
      (s.entityCompStorage.validComponent e t).isSome) :
    ∀ (es : List Nat) (m : SerializedState),
    (∀ e ∈ es, e ∈ s.entityComponentsDom) →
    (es.foldl (fun mc e => s.AddEntityToMessageFlat mc e ∅) m).entities =
      m.entities ++ es.map (entMsgOf s) := by
  intro es
  induction es with
  | nil =>
    intro m _
    rw [List.map_nil, List.append_nil]
    rfl
  | cons e rest ih =>
    intro m hdom
    rw [List.foldl_cons,
      addEntityToMessageFlat_shape s m e (hdom e (List.mem_cons_self e rest))
        (by rw [hTR]; exact Finset.not_mem_empty e)
        (hPay' e (hdom e (List.mem_cons_self e rest))),
      ih _ (fun x hx => hdom x (List.mem_cons_of_mem e hx))]
    rw [List.map_cons, List.append_assoc]
    rfl

theorem stateFlat_entities (s : ECM) (hTR : s.toRemoveEntities = ∅)
    (hPay' : ∀ e ∈ s.entityComponentsDom, ∀ t ∈ s.entityComponentsVal e,
      (s.entityCompStorage.validComponent e t).isSome) :
    (s.StateFlat ∅ ∅).entities = (ascList s.entityComponentsDom).map (entMsgOf s) := by
  unfold ECM.StateFlat
  rw [List.filter_eq_self.mpr
    (fun a _ => decide_eq_true (Or.inl (rfl : (∅ : Finset Nat) = ∅)))]
  rw [foldl_addFlat_map s hTR hPay' (ascList s.entityComponentsDom) ⟨[]⟩
    (fun e he => (mem_ascList _ _).mp he)]
  rw [List.nil_append]

/-- The state of the C9 counterexample: entity 1 created bare (no
`entityComponents` entry), entity 2 with component `(10, "aa")` and marked
for removal, entity 3 whose type-11 component was removed and re-created
with payload `"cc"` (leaving 11 in the removed-components ledger), and
entity 4 with a component whose serialization is the empty string. -/
def c9State : ECM :=
  let F := fun t => decide (t = 10 ∨ t = 11 ∨ t = 12)
  let s2 := ((ECM.fresh.CreateEntity).2.CreateEntity).2
  let s4 := ((ECM.CreateComponentImplementation F s2 2 10 "aa").2
    ).RequestRemoveEntity 2 false
  let s5 := (s4.CreateEntity).2
  let s8 := (ECM.CreateComponentImplementation F
    ((ECM.CreateComponentImplementation F s5 3 11 "bb").2.RemoveComponent 3 11).2
    3 11 "cc").2
  let s9 := (s8.CreateEntity).2
  (ECM.CreateComponentImplementation F s9 4 12 "").2

/-- The rebuilt manager: the flat state of `c9State` applied to a fresh
manager with the same factory. -/
def c9Rebuilt : ECM :=
  ECM.SetStateFlat (fun t => decide (t = 10 ∨ t = 11 ∨ t = 12)) ECM.fresh
    (c9State.StateFlat ∅ ∅)

/-- C9 counterexample: the round trip loses the component-less entity 1
and the to-remove entity 2 from the population, drops entity 3's re-created
component (its stale removed-components entry is applied after the
payload), and drops entity 4's empty-serialization component — all
differences in entity population or component payloads, not in the change
ledgers or the id counter. -/
theorem claim9_counterexample :
    c9State.entities.verts = {4, 3, 2, 1} ∧
    c9Rebuilt.entities.verts = {4, 3} ∧
    c9Rebuilt.EntityCount ≠ c9State.EntityCount ∧
    c9State.entityCompStorage.validComponent 3 11 = some "cc" ∧
    c9Rebuilt.entityCompStorage.validComponent 3 11 = none ∧
    c9State.entityCompStorage.validComponent 4 12 = some "" ∧
    c9Rebuilt.entityCompStorage.validComponent 4 12 = none := by
  refine ⟨?_, ?_, ?_, ?_, ?_, ?_, ?_⟩ <;> decide

/-- C9 amended: the round trip `SetState(State(S))` on a fresh manager
reproduces the entity population and all component payloads exactly,
provided that every entity of `S` has an `entityComponents` entry, no
entity is marked for removal, every indexed component is present in storage
with a non-empty serialization and a factory-known type, and no present
component type is also listed in the removed-components ledger; the change
ledgers and the id counter of the rebuilt manager are unconstrained.  Each
restriction is forced by a failure mode exhibited in the counterexample. -/
theorem claim9_roundtrip_restricted :
    ∀ (F : Nat → Bool) (s : ECM),
    s.entityComponentsDom = s.entities.verts →
    s.toRemoveEntities = ∅ →
    (∀ e ∈ s.entityComponentsDom, ∀ t ∈ s.entityComponentsVal e, ∃ b,
      s.entityCompStorage.validComponent e t = some b ∧ b ≠ "" ∧ F t = true) →
    (∀ e ∈ s.entityComponentsDom, ∀ t ∈ s.removedComponents e,
      t ∉ s.entityComponentsVal e) →
    (ECM.SetStateFlat F ECM.fresh (s.StateFlat ∅ ∅)).entities.verts =
      s.entities.verts ∧
    (∀ e t, (ECM.SetStateFlat F ECM.fresh (s.StateFlat ∅ ∅)
        ).entityCompStorage.validComponent e t =
      (if e ∈ s.entityComponentsDom ∧ t ∈ s.entityComponentsVal e
        then s.entityCompStorage.validComponent e t else none)) := by
  intro F s hPop hTR hPay hRem
  have hPay' : ∀ e ∈ s.entityComponentsDom, ∀ t ∈ s.entityComponentsVal e,
      (s.entityCompStorage.validComponent e t).isSome := by
    intro e he t ht
    obtain ⟨b, hb, _, _⟩ := hPay e he t ht
    rw [hb]
    rfl
  have hset : ECM.SetStateFlat F ECM.fresh (s.StateFlat ∅ ∅) =
      applyEntList F s (ascList s.entityComponentsDom) ECM.fresh := by
    unfold ECM.SetStateFlat applyEntList
    rw [stateFlat_entities s hTR hPay', List.foldl_map]
  obtain ⟨hv, hvalid, hframe⟩ :=
    applyEntities_effect F s hPay hRem (ascList s.entityComponentsDom) ECM.fresh
      (ascList_nodup _) (fun e he => (mem_ascList _ _).mp he)
      (fun e _ => ⟨Finset.not_mem_empty e, Finset.not_mem_empty e,
        fun _ => rfl, rfl⟩)
  constructor
  · rw [hset, hv, ascList_toFinset]
    show ∅ ∪ s.entityComponentsDom = s.entities.verts
    rw [Finset.empty_union, hPop]
  · intro e t
    rw [hset]
    by_cases hD : e ∈ s.entityComponentsDom
    · rw [hvalid e ((mem_ascList _ _).mpr hD) t]
      by_cases hT : t ∈ s.entityComponentsVal e
      · rw [if_pos hT, if_pos ⟨hD, hT⟩]
      · rw [if_neg hT, if_neg (fun hc => hT hc.2)]
    · obtain ⟨hf1, _⟩ := hframe e (fun hc => hD ((mem_ascList _ _).mp hc))
      rw [if_neg (fun hc => hD hc.1)]
      have habs : (applyEntList F s (ascList s.entityComponentsDom)
          ECM.fresh).entityCompStorage.slots e t = Slot.absent := by
        rw [congrFun hf1 t]
        rfl
      exact validComponent_of_absent _ _ _ habs

/-- A one-entity, one-component state satisfying every hypothesis of the
amended C9. -/
def c9WitnessState : ECM :=
  (ECM.CreateComponentImplementation (fun t => decide (t = 10))
    (ECM.fresh.CreateEntity).2 1 10 "x").2

/-- Witness for the amended C9 at a concrete well-formed state. -/
theorem claim9_witness :
    (ECM.SetStateFlat (fun t => decide (t = 10)) ECM.fresh
        (c9WitnessState.StateFlat ∅ ∅)).entities.verts =
      c9WitnessState.entities.verts ∧
    (∀ e t, (ECM.SetStateFlat (fun t => decide (t = 10)) ECM.fresh
        (c9WitnessState.StateFlat ∅ ∅)).entityCompStorage.validComponent e t =
      (if e ∈ c9WitnessState.entityComponentsDom ∧
          t ∈ c9WitnessState.entityComponentsVal e
        then c9WitnessState.entityCompStorage.validComponent e t else none)) := by
  refine claim9_roundtrip_restricted (fun t => decide (t = 10)) c9WitnessState
    (by decide) (by decide) ?_ ?_
  · intro e he t ht
    have hD : c9WitnessState.entityComponentsDom = {1} := by decide
    rw [hD, Finset.mem_singleton] at he
    subst he
    have hV : c9WitnessState.entityComponentsVal 1 = {10} := by decide
    rw [hV, Finset.mem_singleton] at ht
    subst ht
    exact ⟨"x", by decide, by decide, by decide⟩
  · intro e he t ht
    have hD : c9WitnessState.entityComponentsDom = {1} := by decide
    rw [hD, Finset.mem_singleton] at he
    subst he
    have hR : c9WitnessState.removedComponents 1 = ∅ := by decide
    rw [hR] at ht
    exact absurd ht (Finset.not_mem_empty t)
